import Mathlib

/-!
Verification of the keep-ecdsa event-driven coordinator against its
natural-language specification.

The definitions below are a shallow embedding of the Go sources:

* `src/pkg/client/client.go` — the per-keep event handlers
  (`monitorSigningRequests`, `checkAwaitingSignature`,
  `monitorKeepClosedEvents`, `monitorKeepTerminatedEvent`,
  `generateKeyForKeep`, `checkAwaitingKeyGeneration`);
* `src/unnamed/part_002` — `BroadcastRecoveryAddress` and
  `ValidateReceivedBtcAddress` from the `tss` package.

External collaborators (host chain reads, the TSS engine, btcutil, the
`recovery` helpers, `ethlike.WaitForBlockConfirmations`,
`utils.DoWithDefaultRetry`) are modelled as oracles supplied by an
environment record, or — where the spec gives their contract — by a
definition marked `Modelled from the spec`.  Event handlers become pure
functions from such an environment to the ordered list of observable
actions they perform; every handler branch mirrors a branch of the Go
source, including its early `return`s on error.
-/

namespace KeepEcdsa

/-- Errors are opaque; only their presence matters to the coordinator. -/
abbrev Err := String

/-- Off-chain member identifier (`tss.MemberID`, a byte string in Go). -/
abbrev MemberID := Nat

/-- A host-chain or Bitcoin address, kept as the string the Go code uses. -/
abbrev Addr := String

/-- The number of block confirmations the client waits until it starts the
requested signing process (client.go, `blockConfirmations`). -/
def blockConfirmations : Nat := 12

/-- Byte-wise lexicographic comparison of character lists, the order used by
Go's `sort.Strings` (addresses are ASCII, so code points and bytes agree). -/
def charListLe : List Char → List Char → Bool
  | [], _ => true
  | _ :: _, [] => false
  | a :: as, b :: bs =>
    if a.toNat < b.toNat then true
    else if b.toNat < a.toNat then false
    else charListLe as bs

/-- Lexicographic order on strings, as compared by Go's `sort.Strings`. -/
def strLeB (a b : String) : Bool := charListLe a.data b.data

/-- Insert a string into a (sorted) list, keeping the order. -/
def insertStr (a : String) : List String → List String
  | [] => [a]
  | b :: t => if strLeB a b then a :: b :: t else b :: insertStr a t

/-- Model of Go's `sort.Strings`: the result is the unique sorted permutation
of the input, computed here by insertion sort. -/
def sortStrings (l : List String) : List String := l.foldr insertStr []

theorem charListLe_total : ∀ x y, charListLe x y = true ∨ charListLe y x = true := by
  intro x
  induction x with
  | nil => intro y; left; rfl
  | cons a as ih =>
    intro y
    cases y with
    | nil => right; rfl
    | cons b bs =>
      simp only [charListLe]
      rcases Nat.lt_trichotomy a.toNat b.toNat with h | h | h
      · left; simp [h]
      · have h1 : ¬ a.toNat < b.toNat := by omega
        have h2 : ¬ b.toNat < a.toNat := by omega
        rcases ih bs with hc | hc
        · left; simp [h1, h2, hc]
        · right; simp [h1, h2, hc]
      · right; simp [h]

theorem charListLe_trans :
    ∀ x y z, charListLe x y = true → charListLe y z = true → charListLe x z = true := by
  intro x
  induction x with
  | nil => intro y z _ _; rfl
  | cons a as ih =>
    intro y z hxy hyz
    cases y with
    | nil => simp [charListLe] at hxy
    | cons b bs =>
      cases z with
      | nil => simp [charListLe] at hyz
      | cons c cs =>
        simp only [charListLe] at hxy hyz ⊢
        by_cases hab : a.toNat < b.toNat
        · by_cases hbc : b.toNat < c.toNat
          · have : a.toNat < c.toNat := by omega
            simp [this]
          · simp [hab] at hxy
            by_cases hcb : c.toNat < b.toNat
            · simp [hbc, hcb] at hyz
            · have : a.toNat < c.toNat := by omega
              simp [this]
        · by_cases hba : b.toNat < a.toNat
          · simp [hab, hba] at hxy
          · have hone : a.toNat = b.toNat := by omega
            by_cases hbc : b.toNat < c.toNat
            · have : a.toNat < c.toNat := by omega
              simp [this]
            · by_cases hcb : c.toNat < b.toNat
              · simp [hbc, hcb] at hyz
              · have h1 : ¬ a.toNat < c.toNat := by omega
                have h2 : ¬ c.toNat < a.toNat := by omega
                simp only [if_neg hab, if_neg hba] at hxy
                simp only [if_neg hbc, if_neg hcb] at hyz
                simp only [if_neg h1, if_neg h2]
                exact ih bs cs hxy hyz

theorem strLeB_total (a b : String) : strLeB a b = true ∨ strLeB b a = true :=
  charListLe_total a.data b.data

theorem strLeB_trans {a b c : String} (h1 : strLeB a b = true) (h2 : strLeB b c = true) :
    strLeB a c = true :=
  charListLe_trans a.data b.data c.data h1 h2

theorem insertStr_perm (a : String) : ∀ l, (insertStr a l).Perm (a :: l) := by
  intro l
  induction l with
  | nil => simp [insertStr]
  | cons b t ih =>
    simp only [insertStr]
    by_cases h : strLeB a b
    · simp [h]
    · simp only [h, if_false]
      exact (List.Perm.cons b ih).trans (List.Perm.swap a b t)

theorem sortStrings_perm (l : List String) : (sortStrings l).Perm l := by
  induction l with
  | nil => simp [sortStrings]
  | cons a t ih =>
    simp only [sortStrings, List.foldr_cons]
    exact (insertStr_perm a _).trans (List.Perm.cons a ih)

theorem mem_insertStr {x a : String} {l : List String} :
    x ∈ insertStr a l → x = a ∨ x ∈ l := by
  intro h
  have := (insertStr_perm a l).mem_iff.mp h
  simpa using this

theorem insertStr_sorted {a : String} {l : List String}
    (h : l.Pairwise (fun x y => strLeB x y = true)) :
    (insertStr a l).Pairwise (fun x y => strLeB x y = true) := by
  induction l with
  | nil => simp [insertStr]
  | cons b t ih =>
    simp only [insertStr]
    rcases List.pairwise_cons.mp h with ⟨hb, ht⟩
    by_cases hab : strLeB a b
    · simp only [hab, if_true]
      refine List.pairwise_cons.mpr ⟨?_, h⟩
      intro y hy
      rcases List.mem_cons.mp hy with rfl | hyt
      · exact hab
      · exact strLeB_trans hab (hb y hyt)
    · simp only [hab, if_false]
      have hba : strLeB b a = true := by
        rcases strLeB_total a b with h1 | h1
        · exact absurd h1 hab
        · exact h1
      refine List.pairwise_cons.mpr ⟨?_, ih ht⟩
      intro y hy
      rcases mem_insertStr hy with rfl | hyt
      · exact hba
      · exact hb y hyt

theorem sortStrings_sorted (l : List String) :
    (sortStrings l).Pairwise (fun x y => strLeB x y = true) := by
  induction l with
  | nil => simp [sortStrings]
  | cons a t ih =>
    simp only [sortStrings, List.foldr_cons]
    exact insertStr_sorted ih

/-- The fold the Go sources use to take the minimum of a list of fees:
`if v < acc { acc = v }` over the list. -/
def foldlIntMin (start : Int) (l : List Int) : Int :=
  l.foldl (fun acc v => if v < acc then v else acc) start

theorem foldlIntMin_le_start : ∀ (l : List Int) (start : Int), foldlIntMin start l ≤ start := by
  intro l
  induction l with
  | nil => intro start; simp [foldlIntMin]
  | cons v t ih =>
    intro start
    simp only [foldlIntMin, List.foldl_cons]
    by_cases h : v < start
    · simp only [h, if_true]
      exact le_trans (ih v) (le_of_lt h)
    · simp only [h, if_false]
      exact ih start

theorem foldlIntMin_le_mem :
    ∀ (l : List Int) (start x : Int), x ∈ l → foldlIntMin start l ≤ x := by
  intro l
  induction l with
  | nil => intro start x hx; simp at hx
  | cons v t ih =>
    intro start x hx
    simp only [foldlIntMin, List.foldl_cons]
    rcases List.mem_cons.mp hx with rfl | hxt
    · by_cases h : x < start
      · simp only [h, if_true]
        exact foldlIntMin_le_start t x
      · simp only [h, if_false]
        exact le_trans (foldlIntMin_le_start t start) (not_lt.mp h)
    · by_cases h : v < start
      · simp only [h, if_true]; exact ih v x hxt
      · simp only [h, if_false]; exact ih start x hxt

theorem foldlIntMin_mem :
    ∀ (l : List Int) (start : Int), foldlIntMin start l = start ∨ foldlIntMin start l ∈ l := by
  intro l
  induction l with
  | nil => intro start; left; rfl
  | cons v t ih =>
    intro start
    simp only [foldlIntMin, List.foldl_cons]
    by_cases h : v < start
    · simp only [h, if_true]
      rcases ih v with heq | hmem
      · right; exact List.mem_cons.mpr (Or.inl heq)
      · right; exact List.mem_cons.mpr (Or.inr hmem)
    · simp only [h, if_false]
      rcases ih start with heq | hmem
      · left; exact heq
      · right; exact List.mem_cons.mpr (Or.inr hmem)

/-! ### `BroadcastRecoveryAddress` and `ValidateReceivedBtcAddress` (part_002) -/

/-- `recoveryInfo` (part_002): the broadcast information needed from the other
signers to complete liquidation recovery.  Also serves as the element type of
the recovery information list handled by `monitorKeepTerminatedEvent`
(client.go), whose Go struct has the same two exported fields. -/
structure RecoveryInfo where
  btcRecoveryAddress : String
  maxFeePerVByte : Int
  deriving Repr, DecidableEq

/-- `LiquidationRecoveryAnnounceMessage`: the announcement frame transmitted
over the keep-scoped broadcast channel. -/
structure LiquidationRecoveryAnnounceMessage where
  senderID : MemberID
  btcRecoveryAddress : String
  maxFeePerVByte : Int
  deriving Repr, DecidableEq

/-- The network parameters handed to address validation.  `btcutil`'s
`DecodeAddress` and `Address.IsForNet` are external library calls, modelled by
the two oracles. -/
structure ChainParams where
  name : String
  decodeOk : String → Bool
  isForNet : String → Bool

/-- `ValidateReceivedBtcAddress` (part_002): decode the address against the
supplied chain parameters, then check it is valid for that chain. -/
def ValidateReceivedBtcAddress (btcAddress : String) (chainParams : ChainParams) :
    Except Err Unit :=
  if !chainParams.decodeOk btcAddress then
    .error ("failed to decode address " ++ btcAddress ++ " for chain " ++ chainParams.name)
  else if !chainParams.isForNet btcAddress then
    .error ("address " ++ btcAddress ++ " is not a valid btc address for chain "
      ++ chainParams.name)
  else
    .ok ()

/-- Environment of one `BroadcastRecoveryAddress` run.  `received` is the list
of announce messages the receive loop handled before the context ended, in
order; the member's own outgoing announcement reaches it through the same
channel.  `memberIDToAddress` models `memberIDToAddress` with the
`pubKeyToAddressFn` parameter folded in; `none` is a conversion error. -/
structure BroadcastEnv where
  groupMemberIDs : List MemberID
  memberIDToAddress : MemberID → Option Addr
  chainParams : ChainParams
  received : List LiquidationRecoveryAnnounceMessage

/-- Go map assignment `m[k] = v` on an association list: replace the entry if
the key is present, append it otherwise. -/
def mapInsert : List (Addr × RecoveryInfo) → Addr → RecoveryInfo →
    List (Addr × RecoveryInfo)
  | [], k, v => [(k, v)]
  | (k', v') :: rest, k, v =>
    if k' = k then (k, v) :: rest else (k', v') :: mapInsert rest k v

/-- The body of the receive loop of `BroadcastRecoveryAddress`: find the group
member whose ID equals the sender's, convert it to an address (dropping the
message if the conversion fails) and store the announced recovery info under
that address, overwriting any earlier entry. -/
def recordAnnouncement (env : BroadcastEnv) (m : List (Addr × RecoveryInfo))
    (msg : LiquidationRecoveryAnnounceMessage) : List (Addr × RecoveryInfo) :=
  match env.groupMemberIDs.find? (fun mid => mid == msg.senderID) with
  | none => m
  | some mid =>
    match env.memberIDToAddress mid with
    | none => m
    | some memberAddress =>
      mapInsert m memberAddress
        { btcRecoveryAddress := msg.btcRecoveryAddress
          maxFeePerVByte := msg.maxFeePerVByte }

/-- `memberRecoveryInfo`: the per-member-address map after handling all
received announcements. -/
def memberRecoveryInfo (env : BroadcastEnv) : List (Addr × RecoveryInfo) :=
  env.received.foldl (recordAnnouncement env) []

/-- The receive loop cancels the context (protocol locally complete) exactly
when, after handling a message, the map covers as many addresses as there are
group members.  The map only grows along the loop and never exceeds the group
size, so this is equivalent to the final map having full size, with at least
one message handled (the size check only runs after a message). -/
def gatherCompleted (env : BroadcastEnv) : Bool :=
  !env.received.isEmpty &&
    (memberRecoveryInfo env).length == env.groupMemberIDs.length

/-- The members logged as missing on the deadline-exceeded path: every group
member whose ID converts to an address that has no entry in the map (a member
whose conversion fails is logged differently and skipped). -/
def missingMembers (env : BroadcastEnv) : List Addr :=
  env.groupMemberIDs.filterMap (fun mid =>
    match env.memberIDToAddress mid with
    | none => none
    | some a =>
      if ((memberRecoveryInfo env).lookup a).isSome then none else some a)

/-- The largest int32, the fee fold's start value in part_002. -/
def int32Max : Int := 2147483647

/-- Observable outcome of `BroadcastRecoveryAddress`: the sorted address list
with the chosen fee, a validation error naming the offending address, or the
deadline error after logging the missing members. -/
inductive BroadcastOutcome
  | ok (retrievalAddresses : List String) (maxFeePerVByte : Int)
  | invalidAddressError (btcAddress : String)
  | timeoutError (missingMembers : List Addr)
  deriving Repr, DecidableEq

/-- `BroadcastRecoveryAddress` (part_002).  On local completion (context
cancelled): validate every stored address, aborting with an error at the
first invalid one; otherwise return the addresses sorted by `sort.Strings`
together with the minimum announced fee (fold started at the largest int32).
On deadline: log the missing members and return an error. -/
def BroadcastRecoveryAddress (env : BroadcastEnv) : BroadcastOutcome :=
  if gatherCompleted env then
    match (memberRecoveryInfo env).find?
        (fun e => !(ValidateReceivedBtcAddress e.2.btcRecoveryAddress env.chainParams).isOk) with
    | some e => .invalidAddressError e.2.btcRecoveryAddress
    | none =>
      .ok (sortStrings ((memberRecoveryInfo env).map (fun e => e.2.btcRecoveryAddress)))
        ((memberRecoveryInfo env).foldl (fun acc e =>
          if e.2.maxFeePerVByte < acc then e.2.maxFeePerVByte else acc) int32Max)
  else
    .timeoutError (missingMembers env)

/-! ### Reorg confirmation and retry (spec-modelled collaborators) -/

/-- The block at which a confirmation re-evaluates its predicate: the first
block satisfying the wait condition `current block ≥ startBlock + confirmations`. -/
def confirmationBlock (currentBlock startBlock confirmations : Nat) : Nat :=
  max currentBlock (startBlock + confirmations)

/-- Modelled from the spec: `ethlike.WaitForBlockConfirmations` (keep-common,
not part of this repository) waits until the current block is at least
`startBlock + confirmations`, then re-evaluates the predicate against the now
more settled chain state and returns its value, failing only if the chain
client fails.  Chain state is a function of the block height; the predicate is
evaluated at the block where the wait ends. -/
def waitForBlockConfirmations (currentBlock startBlock confirmations : Nat)
    (predicate : Nat → Except Err Bool) : Except Err Bool :=
  predicate (confirmationBlock currentBlock startBlock confirmations)

/-- Modelled from the spec: `utils.DoWithDefaultRetry` (pkg/utils, not part of
this repository) re-invokes an operation while it reports an error, until it
reports success or the deadline elapses; the deadline is modelled as a maximum
number of attempts.  `attemptResult k` is what the operation reports on its
`k`-th invocation; the result counts the invocations performed. -/
def doWithRetryCount (attemptResult : Nat → Option Err) : Nat → Nat
  | 0 => 0
  | n + 1 =>
    match attemptResult 0 with
    | none => 1
    | some _ => 1 + doWithRetryCount (fun k => attemptResult (k + 1)) n

/-! ### The signing-request operation (client.go, `monitorSigningRequests`) -/

/-- Oracles consumed by one attempt of the signing-request operation. -/
structure SigningEnv where
  notifySigningStarted : Except Err Bool
  currentBlock : Nat
  isAwaitingSignatureAt : Nat → Except Err Bool
  calculateSignature : Except Err Unit

/-- Observable actions of a signing operation attempt. -/
inductive SAction
  | confirmAwaitingSignature (block : Nat) (isAwaiting : Bool)
  | calculateSignature (succeeded : Bool)
  deriving Repr, DecidableEq

/-- What one attempt of the operation reports to `DoWithDefaultRetry`, and the
actions it performed. -/
structure SigningOpResult where
  returnedError : Option Err
  actions : List SAction
  deriving Repr, DecidableEq

/-- The operation closure passed to `utils.DoWithDefaultRetry` inside
`monitorSigningRequests` (client.go): deduplicate, confirm
`isAwaitingSignature` from the event's block, then calculate the signature.
The source's final `return err` returns the outer `err` variable, which is
`nil` at that point; the `if err := tssNode.CalculateSignature(...)` opens a
new, shadowed `err`, so a signature-calculation failure is logged but never
returned to the retry loop. -/
def signingRequestOperation (env : SigningEnv) (eventBlock : Nat) : SigningOpResult :=
  match env.notifySigningStarted with
  | .error e => { returnedError := some e, actions := [] }
  | .ok shouldHandle =>
    if !shouldHandle then { returnedError := none, actions := [] }
    else
      match waitForBlockConfirmations env.currentBlock eventBlock blockConfirmations
          env.isAwaitingSignatureAt with
      | .error e => { returnedError := some e, actions := [] }
      | .ok isAwaitingSignature =>
        if !isAwaitingSignature then
          { returnedError := none
            actions := [SAction.confirmAwaitingSignature
              (confirmationBlock env.currentBlock eventBlock blockConfirmations) false] }
        else
          { returnedError := none
            actions := [SAction.confirmAwaitingSignature
                (confirmationBlock env.currentBlock eventBlock blockConfirmations) true,
              SAction.calculateSignature env.calculateSignature.isOk] }

/-! ### The startup signing check (client.go, `checkAwaitingSignature`) -/

/-- Oracles consumed by one attempt of the `checkAwaitingSignature` retry
operation (the handler has already read `latestDigest` and seen
`isAwaitingSignature` hold for it). -/
structure CheckAwaitingEnv where
  notifySigningStarted : Except Err Bool
  signatureRequestedBlock : Except Err Nat
  currentBlock : Nat
  isAwaitingSignatureAt : Nat → Except Err Bool
  isActiveAt : Nat → Except Err Bool
  calculateSignature : Except Err Unit

/-- The confirmation predicate of `checkAwaitingSignature`: re-read
`isAwaitingSignature` and `isActive` and conjoin them, propagating either
read error. -/
def awaitingAndActive (env : CheckAwaitingEnv) (block : Nat) : Except Err Bool :=
  match env.isAwaitingSignatureAt block with
  | .error e => .error e
  | .ok isAwaitingSignature =>
    match env.isActiveAt block with
    | .error e => .error e
    | .ok isActive => .ok (isAwaitingSignature && isActive)

/-- The operation closure passed to `utils.DoWithDefaultRetry` inside
`checkAwaitingSignature` (client.go): deduplicate, read the block where the
signature was requested, confirm `isAwaitingSignature && isActive` from that
block, then calculate the signature.  The same `err` shadowing as in
`signingRequestOperation` makes the final `return err` report `nil`. -/
def checkAwaitingSignatureOperation (env : CheckAwaitingEnv) : SigningOpResult :=
  match env.notifySigningStarted with
  | .error e => { returnedError := some e, actions := [] }
  | .ok shouldHandle =>
    if !shouldHandle then { returnedError := none, actions := [] }
    else
      match env.signatureRequestedBlock with
      | .error e => { returnedError := some e, actions := [] }
      | .ok startBlock =>
        match waitForBlockConfirmations env.currentBlock startBlock blockConfirmations
            (awaitingAndActive env) with
        | .error e => { returnedError := some e, actions := [] }
        | .ok isStillAwaitingSignature =>
          if !isStillAwaitingSignature then
            { returnedError := none
              actions := [SAction.confirmAwaitingSignature
                (confirmationBlock env.currentBlock startBlock blockConfirmations) false] }
          else
            { returnedError := none
              actions := [SAction.confirmAwaitingSignature
                  (confirmationBlock env.currentBlock startBlock blockConfirmations) true,
                SAction.calculateSignature env.calculateSignature.isOk] }

/-! ### Startup reconciliation (client.go, `Initialize` / `confirmIsInactive`) -/

/-- Oracles consumed by `confirmIsInactive` for one persisted keep that was
observed inactive at startup.  `observedBlock` is the current block read when
the check starts (the wait's start block); `currentBlock` the chain's block
when the wait ends. -/
structure StartupEnv where
  observedBlock : Nat
  currentBlock : Nat
  isActiveAt : Nat → Except Err Bool

/-- `confirmIsInactive` (client.go): read the current block, wait
`blockConfirmations` blocks from it, re-evaluate `IsActive` and report
inactivity; any failure reports `false` (not confirmed).  The startup
reconciliation unregisters the keep exactly when this returns `true`. -/
def confirmIsInactive (env : StartupEnv) : Bool :=
  match waitForBlockConfirmations env.currentBlock env.observedBlock blockConfirmations
      env.isActiveAt with
  | .error _ => false
  | .ok isKeepActive => !isKeepActive

/-! ### The closed-event handler (client.go, `monitorKeepClosedEvents`) -/

/-- Oracles consumed by one run of the closed-event handler goroutine. -/
structure ClosedEnv where
  shouldHandle : Bool
  currentBlock : Nat
  isActiveAt : Nat → Except Err Bool

/-- Observable actions of the closed-event handler. -/
inductive CAction
  | confirmClosed (block : Nat) (isActive : Bool)
  | unregisterKeep
  deriving Repr, DecidableEq

/-- The goroutine handling one `KeepClosed` event (client.go): deduplicate,
confirm `IsActive` from the event's block and, if the keep is confirmed
inactive, unregister it. -/
def monitorKeepClosedHandler (env : ClosedEnv) (eventBlock : Nat) : List CAction :=
  if !env.shouldHandle then []
  else
    match waitForBlockConfirmations env.currentBlock eventBlock blockConfirmations
        env.isActiveAt with
    | .error _ => []
    | .ok isKeepActive =>
      if isKeepActive then
        [CAction.confirmClosed
          (confirmationBlock env.currentBlock eventBlock blockConfirmations) true]
      else
        [CAction.confirmClosed
            (confirmationBlock env.currentBlock eventBlock blockConfirmations) false,
          CAction.unregisterKeep]

/-! ### The terminated-event handler (client.go, `monitorKeepTerminatedEvent`) -/

/-- Oracles consumed by one run of the terminated-event handler goroutine.
Each `Except` field is one fallible step of the source, in handler order;
`varintBytesRead` is the second result of `binary.Varint` (Go stdlib) on the
funding info's value bytes. -/
structure TerminatedEnv where
  shouldHandle : Bool
  currentBlock : Nat
  isActiveAt : Nat → Except Err Bool
  announce : Except Err (List MemberID)
  broadcast : Except Err (List RecoveryInfo)
  derive : String → Nat → Except Err String
  getSigner : Except Err Unit
  scriptCode : Except Err Unit
  getOwner : Except Err Addr
  fundingInfo : Except Err Unit
  varintValue : Int
  varintBytesRead : Int
  constructTx : List String → Int → Except Err Unit
  sighash : Except Err Unit
  calcSignature : Except Err Unit
  buildHex : Except Err String

/-- Observable actions of the terminated-event handler. -/
inductive TAction
  | confirmTermination (block : Nat) (isActive : Bool)
  | constructTransaction (outputAddresses : List String) (feePerVByte : Int)
  | logSignedTransaction (hex : String) (times : Nat)
  | unregisterKeep
  deriving Repr, DecidableEq

/-- The raw peer addresses of the received recovery infos, in order
(client.go, the `rawBtcAddresses` loop). -/
def rawBtcAddressesOf (recoveryInfos : List RecoveryInfo) : List String :=
  recoveryInfos.map (fun r => r.btcRecoveryAddress)

/-- The fee chosen by `monitorKeepTerminatedEvent`: start from the first
received info's fee and keep any strictly smaller fee seen while walking the
list (the Go loop re-visits the first entry, a no-op). -/
def chosenMaxFeePerVByte (first : RecoveryInfo) (recoveryInfos : List RecoveryInfo) : Int :=
  foldlIntMin first.maxFeePerVByte (recoveryInfos.map (fun r => r.maxFeePerVByte))

/-- Derive every raw address at child index 0 (`recovery.DeriveAddress(raw, 0)`),
stopping at the first failure like the source loop. -/
def deriveAll (derive : String → Nat → Except Err String) :
    List String → Except Err (List String)
  | [] => .ok []
  | raw :: rest =>
    match derive raw 0 with
    | .error e => .error e
    | .ok a =>
      match deriveAll derive rest with
      | .error e => .error e
      | .ok tail => .ok (a :: tail)

/-- The recovery steps of the terminated handler, run once the keep's
inactivity is confirmed (client.go lines 1014–1211).  Every `.error` branch
mirrors a `return` in the source: the step's failure is logged and the
goroutine exits, performing nothing further — in particular, not reaching
`keepsRegistry.UnregisterKeep`, which the source only executes after the
signed transaction hex was built and logged.  An empty broadcast result would
make the source panic at `recoveryInfos[0]`, equally performing nothing
further. -/
def terminatedRecoverySteps (env : TerminatedEnv) : List TAction :=
  match env.announce with
  | .error _ => []
  | .ok _memberIDs =>
    match env.broadcast with
    | .error _ => []
    | .ok recoveryInfos =>
      match recoveryInfos with
      | [] => []
      | first :: rest =>
        match deriveAll env.derive (rawBtcAddressesOf (first :: rest)) with
        | .error _ => []
        | .ok derived =>
          match env.getSigner with
          | .error _ => []
          | .ok _ =>
            match env.scriptCode with
            | .error _ => []
            | .ok _ =>
              match env.getOwner with
              | .error _ => []
              | .ok _ =>
                match env.fundingInfo with
                | .error _ => []
                | .ok _ =>
                  if env.varintBytesRead = 0 then []
                  else if env.varintBytesRead < 0 then []
                  else
                    TAction.constructTransaction (sortStrings derived)
                        (chosenMaxFeePerVByte first (first :: rest)) ::
                      match env.constructTx (sortStrings derived)
                          (chosenMaxFeePerVByte first (first :: rest)) with
                      | .error _ => []
                      | .ok _ =>
                        match env.sighash with
                        | .error _ => []
                        | .ok _ =>
                          match env.calcSignature with
                          | .error _ => []
                          | .ok _ =>
                            match env.buildHex with
                            | .error _ => []
                            | .ok hex =>
                              [TAction.logSignedTransaction hex 5,
                                TAction.unregisterKeep]

/-- The goroutine handling one `KeepTerminated` event (client.go):
deduplicate, confirm `IsActive` from the event's block and, if the keep is
confirmed inactive, run the liquidation-recovery steps. -/
def monitorKeepTerminatedHandler (env : TerminatedEnv) (eventBlock : Nat) : List TAction :=
  if !env.shouldHandle then []
  else
    match waitForBlockConfirmations env.currentBlock eventBlock blockConfirmations
        env.isActiveAt with
    | .error _ => []
    | .ok isKeepActive =>
      if isKeepActive then
        [TAction.confirmTermination
          (confirmationBlock env.currentBlock eventBlock blockConfirmations) true]
      else
        TAction.confirmTermination
            (confirmationBlock env.currentBlock eventBlock blockConfirmations) false ::
          terminatedRecoverySteps env

/-! ### Key generation (client.go, `generateKeyForKeep`) -/

/-- Oracles consumed by `generateKeyForKeep` past its group-shape checks. -/
structure KeyGenEnv where
  generateSigner : Except Err Unit
  registerSigner : Except Err Unit

/-- Observable actions of `generateKeyForKeep`. -/
inductive KAction
  | logConfigError
  | generateSigner
  | registerSigner
  | monitorEvents
  deriving Repr, DecidableEq

/-- `generateKeyForKeep` (client.go): refuse keeps with fewer than 2 members,
refuse keeps whose honest threshold differs from the group size; otherwise
generate a signer, register it in the keeps registry and subscribe to the
keep's events.  Each refusal only logs an error and returns. -/
def generateKeyForKeep (env : KeyGenEnv) (members : List Addr)
    (honestThreshold : Nat) : List KAction :=
  if members.length < 2 then [KAction.logConfigError]
  else if honestThreshold ≠ members.length then [KAction.logConfigError]
  else
    KAction.generateSigner ::
      match env.generateSigner with
      | .error _ => []
      | .ok _ =>
        KAction.registerSigner ::
          match env.registerSigner with
          | .error _ => []
          | .ok _ => [KAction.monitorEvents]

/-! ### The startup scan (client.go, `checkAwaitingKeyGeneration`) -/

/-- On-chain and local state of the keep at one index, as read by the scan.
Each `Except` is one fallible read. -/
structure ScanKeep where
  atIndexOk : Bool
  openedTimestamp : Except Err Nat
  publicKey : Except Err (List Nat)
  hasSigner : Bool
  members : Except Err (List Addr)
  honestThreshold : Except Err Nat

/-- Environment of one `checkAwaitingKeyGeneration` run.  `keeps` holds the
keep at each index, `0` the oldest; timestamps and `now` are in the same
clock. -/
structure ScanEnv where
  getKeepCountOk : Bool
  keeps : List ScanKeep
  lookbackPeriod : Nat
  now : Nat
  myAddress : Addr

/-- Whether a keep at an index makes the scan break: its handle and opening
timestamp are readable and `openedTimestamp + lookbackPeriod` lies before
`now` (read failures are logged and skipped, they never break the scan). -/
def stopsScanAt (env : ScanEnv) (k : ScanKeep) : Bool :=
  k.atIndexOk &&
    match k.openedTimestamp with
    | .error _ => false
    | .ok ts => decide (ts + env.lookbackPeriod < env.now)

/-- `checkAwaitingKeyGenerationForKeep` (client.go), reduced to whether it
invokes `generateKeyForKeep`: the on-chain public key must read back empty, no
local signer material may be stored, members and honest threshold must be
readable, and this node's address must be among the members. -/
def checkAwaitingKeyGenerationForKeep (env : ScanEnv) (k : ScanKeep) : Bool :=
  match k.publicKey with
  | .error _ => false
  | .ok publicKey =>
    if publicKey.length ≠ 0 then false
    else if k.hasSigner then false
    else
      match k.members with
      | .error _ => false
      | .ok members =>
        match k.honestThreshold with
        | .error _ => false
        | .ok _honestThreshold => members.contains env.myAddress

/-- The scan loop from index `n - 1` down to `0`: skip unreadable keeps,
break at the first keep opened before the lookback window, and collect the
indices for which `generateKeyForKeep` is started. -/
def scanKeepsFrom (env : ScanEnv) : Nat → List Nat
  | 0 => []
  | n + 1 =>
    match env.keeps[n]? with
    | none => scanKeepsFrom env n
    | some k =>
      if !k.atIndexOk then scanKeepsFrom env n
      else
        match k.openedTimestamp with
        | .error _ => scanKeepsFrom env n
        | .ok ts =>
          if ts + env.lookbackPeriod < env.now then []
          else if checkAwaitingKeyGenerationForKeep env k then
            n :: scanKeepsFrom env n
          else scanKeepsFrom env n

/-- `checkAwaitingKeyGeneration` (client.go): read the keep count (giving up
on failure) and walk the keeps from the newest index down, returning the
indices for which key generation is started. -/
def checkAwaitingKeyGeneration (env : ScanEnv) : List Nat :=
  if env.getKeepCountOk then scanKeepsFrom env env.keeps.length else []

/-! ### Helper lemmas on the handler models -/

theorem exceptIsOk_iff {α : Type} (e : Except Err α) : e.isOk = true ↔ ∃ a, e = .ok a := by
  cases e <;> simp [Except.isOk, Except.toBool]

/-- Any action of the terminated handler other than the confirmation record
stems from the recovery steps, with the inactivity confirmation established. -/
theorem terminated_handler_mem_steps {env : TerminatedEnv} {eventBlock : Nat} {a : TAction}
    (h : a ∈ monitorKeepTerminatedHandler env eventBlock)
    (hna : ∀ block isActive, a ≠ TAction.confirmTermination block isActive) :
    env.shouldHandle = true ∧
    env.isActiveAt (confirmationBlock env.currentBlock eventBlock blockConfirmations)
      = .ok false ∧
    a ∈ terminatedRecoverySteps env := by
  unfold monitorKeepTerminatedHandler at h
  split at h
  · simp at h
  · rename_i hsh
    split at h
    · simp at h
    · rename_i isKeepActive heq
      rw [waitForBlockConfirmations] at heq
      split at h
      · rename_i hact
        rcases List.mem_singleton.mp h with rfl
        exact absurd rfl (hna _ _)
      · rename_i hact
        rcases List.mem_cons.mp h with rfl | hmem
        · exact absurd rfl (hna _ _)
        · refine ⟨by simpa using hsh, ?_, hmem⟩
          rw [heq]
          congr 1
          simpa using hact

/-- Conversely, once inactivity is confirmed the handler performs every
recovery-step action. -/
theorem terminated_handler_mem_of_steps {env : TerminatedEnv} {eventBlock : Nat} {a : TAction}
    (hs : env.shouldHandle = true)
    (hc : env.isActiveAt (confirmationBlock env.currentBlock eventBlock blockConfirmations)
      = .ok false)
    (h : a ∈ terminatedRecoverySteps env) :
    a ∈ monitorKeepTerminatedHandler env eventBlock := by
  unfold monitorKeepTerminatedHandler
  rw [hs]
  simp only [Bool.not_true, Bool.false_eq_true, if_false]
  rw [waitForBlockConfirmations, hc]
  simp only [Bool.false_eq_true, if_false]
  exact List.mem_cons_of_mem _ h

/-- Reaching transaction construction pins down the output list and the fee:
the former is the sorted derivation of the received raw addresses, the latter
the running minimum of the received fees. -/
theorem terminatedRecoverySteps_mem_construct {env : TerminatedEnv}
    {outs : List String} {fee : Int}
    (h : TAction.constructTransaction outs fee ∈ terminatedRecoverySteps env) :
    ∃ first rest derived,
      env.broadcast = .ok (first :: rest) ∧
      deriveAll env.derive (rawBtcAddressesOf (first :: rest)) = .ok derived ∧
      outs = sortStrings derived ∧
      fee = chosenMaxFeePerVByte first (first :: rest) := by
  unfold terminatedRecoverySteps at h
  split at h
  · simp at h
  · split at h
    · simp at h
    · rename_i recoveryInfos hbr
      split at h
      · simp at h
      · rename_i first rest
        split at h
        · simp at h
        · rename_i derived hder
          split at h
          · simp at h
          · split at h
            · simp at h
            · split at h
              · simp at h
              · split at h
                · simp at h
                · split at h
                  · simp at h
                  · split at h
                    · simp at h
                    · rcases List.mem_cons.mp h with heqc | hmem
                      · obtain ⟨rfl, rfl⟩ : outs = sortStrings derived ∧
                            fee = chosenMaxFeePerVByte first (first :: rest) := by
                          injection heqc with h1 h2
                          exact ⟨h1, h2⟩
                        exact ⟨first, rest, derived, hbr, hder, rfl, rfl⟩
                      · exfalso
                        revert hmem
                        split
                        · simp
                        · split
                          · simp
                          · split
                            · simp
                            · split
                              · simp
                              · simp

/-! ### C6 — key generation refused for invalid groups -/

/-- C6: key generation is attempted only for groups whose honest threshold
equals the member count and whose member count is at least 2; for any keep
violating either condition, `generateKeyForKeep` logs an error and returns
without invoking signer generation and without persisting any signer. -/
theorem keygen_refused_for_invalid_groups :
    (∀ env members honestThreshold,
      KAction.generateSigner ∈ generateKeyForKeep env members honestThreshold →
        honestThreshold = members.length ∧ 2 ≤ members.length) ∧
    (∀ env members honestThreshold,
      KAction.registerSigner ∈ generateKeyForKeep env members honestThreshold →
        honestThreshold = members.length ∧ 2 ≤ members.length) ∧
    (∀ env members honestThreshold,
      members.length < 2 ∨ honestThreshold ≠ members.length →
        generateKeyForKeep env members honestThreshold = [KAction.logConfigError]) := by
  refine ⟨?_, ?_, ?_⟩
  · intro env members ht h
    unfold generateKeyForKeep at h
    by_cases h2 : members.length < 2
    · simp [h2] at h
    · by_cases h3 : ht ≠ members.length
      · simp [h2, h3] at h
      · exact ⟨not_not.mp h3, not_lt.mp h2⟩
  · intro env members ht h
    unfold generateKeyForKeep at h
    by_cases h2 : members.length < 2
    · simp [h2] at h
    · by_cases h3 : ht ≠ members.length
      · simp [h2, h3] at h
      · exact ⟨not_not.mp h3, not_lt.mp h2⟩
  · intro env members ht h
    unfold generateKeyForKeep
    rcases h with h | h
    · simp [h]
    · by_cases h2 : members.length < 2
      · simp [h2]
      · simp [h2, h]

/-- Witness for `keygen_refused_for_invalid_groups`: the spec's invalid-group
scenario, a keep with `honestThreshold = 2` and 3 members, is refused. -/
theorem keygen_refused_for_invalid_groups_witness :
    generateKeyForKeep { generateSigner := .ok (), registerSigner := .ok () }
      ["member1", "member2", "member3"] 2 = [KAction.logConfigError] :=
  keygen_refused_for_invalid_groups.2.2 _ ["member1", "member2", "member3"] 2
    (Or.inr (by decide))

/-! ### C3 — a signing failure is not reported to the retry runner -/

/-- A signing attempt in which deduplication allows handling, the confirmation
12 blocks past the event still reports the keep awaiting the digest, and the
TSS signature calculation then fails. -/
def signingEnvTssFailure : SigningEnv :=
  { notifySigningStarted := .ok true
    currentBlock := 205
    isAwaitingSignatureAt := fun _ => .ok true
    calculateSignature := .error "tss: signing protocol failed" }

/-- C3 (code bug): when TSS signature calculation fails before the deadline,
the operation passed to the retry runner still reports success — the source's
`return err` returns the outer `err`, which is `nil`, because the
`if err := tssNode.CalculateSignature(...)` shadows it.  Consequently the
retry runner performs exactly one invocation instead of re-invoking signing
until success or the deadline (here a budget of 10 attempts remains unused). -/
theorem signing_error_swallowed_by_shadowed_return :
    (signingRequestOperation signingEnvTssFailure 200).actions =
        [SAction.confirmAwaitingSignature 212 true, SAction.calculateSignature false] ∧
    signingEnvTssFailure.calculateSignature.isOk = false ∧
    (signingRequestOperation signingEnvTssFailure 200).returnedError = none ∧
    doWithRetryCount
        (fun _ => (signingRequestOperation signingEnvTssFailure 200).returnedError) 10 = 1 := by
  decide

/-! ### C4 — confirmation precedes every irreversible action -/

theorem awaitingAndActive_ok_true {env : CheckAwaitingEnv} {block : Nat}
    (h : awaitingAndActive env block = .ok true) :
    env.isAwaitingSignatureAt block = .ok true ∧ env.isActiveAt block = .ok true := by
  unfold awaitingAndActive at h
  split at h
  · exact absurd h (by simp)
  · rename_i isAwaiting heq1
    split at h
    · exact absurd h (by simp)
    · rename_i isActive heq2
      injection h with h
      have hb : isAwaiting = true ∧ isActive = true := by
        constructor <;> [exact Bool.and_elim_left h; exact Bool.and_elim_right h]
      rcases hb with ⟨rfl, rfl⟩
      exact ⟨heq1, heq2⟩

/-- C4: no keep is unregistered by the closed or terminated handler or the
startup reconciliation, and no signature calculation is invoked by either
signing path, without a prior confirmation that re-evaluated the relevant
on-chain predicate at a block at least `blockConfirmations = 12` past the
triggering observation's block and got the confirming result —
`isActive = false` for closing/terminating/reconciliation,
`isAwaitingSignature = true` (conjoined with `isActive` on the startup check
path) for signing. -/
theorem confirmation_precedes_irreversible_actions :
    (∀ env eventBlock,
      CAction.unregisterKeep ∈ monitorKeepClosedHandler env eventBlock →
        ∃ block, eventBlock + blockConfirmations ≤ block ∧
          env.isActiveAt block = .ok false) ∧
    (∀ env eventBlock,
      TAction.unregisterKeep ∈ monitorKeepTerminatedHandler env eventBlock →
        ∃ block, eventBlock + blockConfirmations ≤ block ∧
          env.isActiveAt block = .ok false) ∧
    (∀ env eventBlock succeeded,
      SAction.calculateSignature succeeded ∈ (signingRequestOperation env eventBlock).actions →
        ∃ block, eventBlock + blockConfirmations ≤ block ∧
          env.isAwaitingSignatureAt block = .ok true) ∧
    (∀ env succeeded,
      SAction.calculateSignature succeeded ∈ (checkAwaitingSignatureOperation env).actions →
        ∃ startBlock, env.signatureRequestedBlock = .ok startBlock ∧
          ∃ block, startBlock + blockConfirmations ≤ block ∧
            env.isAwaitingSignatureAt block = .ok true ∧
            env.isActiveAt block = .ok true) ∧
    (∀ env, confirmIsInactive env = true →
      ∃ block, env.observedBlock + blockConfirmations ≤ block ∧
        env.isActiveAt block = .ok false) := by
  refine ⟨?_, ?_, ?_, ?_, ?_⟩
  · intro env eventBlock h
    unfold monitorKeepClosedHandler at h
    split at h
    · simp at h
    · split at h
      · simp at h
      · rename_i isKeepActive heq
        rw [waitForBlockConfirmations] at heq
        split at h
        · simp at h
        · rename_i hact
          refine ⟨confirmationBlock env.currentBlock eventBlock blockConfirmations,
            Nat.le_max_right _ _, ?_⟩
          rw [heq]
          congr 1
          simpa using hact
  · intro env eventBlock h
    have := terminated_handler_mem_steps h (by intro block isActive hne; cases hne)
    exact ⟨confirmationBlock env.currentBlock eventBlock blockConfirmations,
      Nat.le_max_right _ _, this.2.1⟩
  · intro env eventBlock succeeded h
    unfold signingRequestOperation at h
    split at h
    · simp at h
    · split at h
      · simp at h
      · split at h
        · simp at h
        · rename_i isAwaiting heq
          rw [waitForBlockConfirmations] at heq
          split at h
          · simp at h
          · rename_i haw
            refine ⟨confirmationBlock env.currentBlock eventBlock blockConfirmations,
              Nat.le_max_right _ _, ?_⟩
            rw [heq]
            congr 1
            simpa using haw
  · intro env succeeded h
    unfold checkAwaitingSignatureOperation at h
    split at h
    · simp at h
    · split at h
      · simp at h
      · split at h
        · simp at h
        · rename_i startBlock heqb
          split at h
          · simp at h
          · rename_i isStill heq
            rw [waitForBlockConfirmations] at heq
            split at h
            · simp at h
            · rename_i haw
              have hstill : isStill = true := by simpa using haw
              subst hstill
              have := awaitingAndActive_ok_true heq
              exact ⟨startBlock, heqb,
                confirmationBlock env.currentBlock startBlock blockConfirmations,
                Nat.le_max_right _ _, this.1, this.2⟩
  · intro env h
    unfold confirmIsInactive at h
    split at h
    · cases h
    · rename_i isKeepActive heq
      rw [waitForBlockConfirmations] at heq
      refine ⟨confirmationBlock env.currentBlock env.observedBlock blockConfirmations,
        Nat.le_max_right _ _, ?_⟩
      rw [heq]
      congr 1
      simpa using h

/-- A closed event whose keep is confirmed inactive. -/
def closedEnvInactive : ClosedEnv :=
  { shouldHandle := true
    currentBlock := 300
    isActiveAt := fun _ => .ok false }

/-- A terminated event for which every recovery step succeeds. -/
def terminatedEnvAllOk : TerminatedEnv :=
  { shouldHandle := true
    currentBlock := 100
    isActiveAt := fun _ => .ok false
    announce := .ok [1, 2, 3]
    broadcast := .ok [{ btcRecoveryAddress := "xpubA", maxFeePerVByte := 40 },
      { btcRecoveryAddress := "xpubB", maxFeePerVByte := 30 },
      { btcRecoveryAddress := "xpubC", maxFeePerVByte := 35 }]
    derive := fun raw _ => .ok ("btc" ++ raw)
    getSigner := .ok ()
    scriptCode := .ok ()
    getOwner := .ok "0xowner"
    fundingInfo := .ok ()
    varintValue := 100000
    varintBytesRead := 3
    constructTx := fun _ _ => .ok ()
    sighash := .ok ()
    calcSignature := .ok ()
    buildHex := .ok "0100abcd" }

/-- A signing attempt that confirms and signs successfully. -/
def signingEnvAllOk : SigningEnv :=
  { notifySigningStarted := .ok true
    currentBlock := 203
    isAwaitingSignatureAt := fun _ => .ok true
    calculateSignature := .ok () }

/-- A startup reconciliation check on a keep confirmed inactive. -/
def startupEnvInactive : StartupEnv :=
  { observedBlock := 400
    currentBlock := 407
    isActiveAt := fun _ => .ok false }

/-- A startup signing check that confirms and signs successfully. -/
def checkAwaitingEnvAllOk : CheckAwaitingEnv :=
  { notifySigningStarted := .ok true
    signatureRequestedBlock := .ok 500
    currentBlock := 503
    isAwaitingSignatureAt := fun _ => .ok true
    isActiveAt := fun _ => .ok true
    calculateSignature := .ok () }

/-- Witness for `confirmation_precedes_irreversible_actions` on concrete runs
of all four handlers. -/
theorem confirmation_precedes_irreversible_actions_witness :
    (∃ block, 200 + blockConfirmations ≤ block ∧
      closedEnvInactive.isActiveAt block = .ok false) ∧
    (∃ block, 100 + blockConfirmations ≤ block ∧
      terminatedEnvAllOk.isActiveAt block = .ok false) ∧
    (∃ block, 200 + blockConfirmations ≤ block ∧
      signingEnvAllOk.isAwaitingSignatureAt block = .ok true) ∧
    (∃ startBlock, checkAwaitingEnvAllOk.signatureRequestedBlock = .ok startBlock ∧
      ∃ block, startBlock + blockConfirmations ≤ block ∧
        checkAwaitingEnvAllOk.isAwaitingSignatureAt block = .ok true ∧
        checkAwaitingEnvAllOk.isActiveAt block = .ok true) ∧
    (∃ block, startupEnvInactive.observedBlock + blockConfirmations ≤ block ∧
      startupEnvInactive.isActiveAt block = .ok false) :=
  ⟨confirmation_precedes_irreversible_actions.1 closedEnvInactive 200 (by decide),
    confirmation_precedes_irreversible_actions.2.1 terminatedEnvAllOk 100 (by decide),
    confirmation_precedes_irreversible_actions.2.2.1 signingEnvAllOk 200 true (by decide),
    confirmation_precedes_irreversible_actions.2.2.2.1 checkAwaitingEnvAllOk true (by decide),
    confirmation_precedes_irreversible_actions.2.2.2.2 startupEnvInactive (by decide)⟩

/-! ### C2 — the sweep fee is the minimum of the received maxima -/

theorem chosenMaxFeePerVByte_spec (first : RecoveryInfo) (rest : List RecoveryInfo) :
    chosenMaxFeePerVByte first (first :: rest)
        ∈ (first :: rest).map (fun r => r.maxFeePerVByte) ∧
    ∀ r ∈ first :: rest, chosenMaxFeePerVByte first (first :: rest) ≤ r.maxFeePerVByte := by
  constructor
  · rcases foldlIntMin_mem ((first :: rest).map (fun r => r.maxFeePerVByte))
        first.maxFeePerVByte with h | h
    · rw [chosenMaxFeePerVByte, h]
      exact List.mem_map_of_mem _ (List.mem_cons_self _ _)
    · exact h
  · intro r hr
    exact foldlIntMin_le_mem _ _ _ (List.mem_map_of_mem _ hr)

/-- C2: the fee per vbyte used for the sweep equals the minimum of all
received `maxFeePerVByte` values and never exceeds any member's stated
maximum — both for the fold in `monitorKeepTerminatedEvent` over the recovery
infos it received and for the fold in `BroadcastRecoveryAddress` over the
gathered per-member map (whose entries are int32, hence at most `int32Max`). -/
theorem sweepFee_is_min_of_received :
    (∀ env eventBlock outs fee,
      TAction.constructTransaction outs fee ∈ monitorKeepTerminatedHandler env eventBlock →
        ∃ recoveryInfos, env.broadcast = .ok recoveryInfos ∧
          fee ∈ recoveryInfos.map (fun r => r.maxFeePerVByte) ∧
          ∀ r ∈ recoveryInfos, fee ≤ r.maxFeePerVByte) ∧
    (∀ env addrs fee, BroadcastRecoveryAddress env = .ok addrs fee →
      (∀ e ∈ memberRecoveryInfo env, fee ≤ e.2.maxFeePerVByte) ∧
      ((∀ e ∈ memberRecoveryInfo env, e.2.maxFeePerVByte ≤ int32Max) →
        memberRecoveryInfo env ≠ [] →
        fee ∈ (memberRecoveryInfo env).map (fun e => e.2.maxFeePerVByte))) := by
  constructor
  · intro env eventBlock outs fee h
    have hsteps := (terminated_handler_mem_steps h
      (by intro block isActive hne; cases hne)).2.2
    obtain ⟨first, rest, derived, hbr, _, _, rfl⟩ :=
      terminatedRecoverySteps_mem_construct hsteps
    exact ⟨first :: rest, hbr, (chosenMaxFeePerVByte_spec first rest).1,
      (chosenMaxFeePerVByte_spec first rest).2⟩
  · intro env addrs fee h
    unfold BroadcastRecoveryAddress at h
    split at h
    · split at h
      · exact absurd h (by simp)
      · injection h with h1 h2
        have hfee : fee = foldlIntMin int32Max
            ((memberRecoveryInfo env).map (fun e => e.2.maxFeePerVByte)) := by
          rw [← h2, foldlIntMin, List.foldl_map]
        constructor
        · intro e he
          rw [hfee]
          exact foldlIntMin_le_mem _ _ _ (List.mem_map_of_mem _ he)
        · intro hbound hne
          rcases foldlIntMin_mem
              ((memberRecoveryInfo env).map (fun e => e.2.maxFeePerVByte)) int32Max with
            hcap | hmem
          · rcases List.exists_mem_of_ne_nil _ hne with ⟨e0, he0⟩
            have h1 : fee ≤ e0.2.maxFeePerVByte := by
              rw [hfee]
              exact foldlIntMin_le_mem _ _ _ (List.mem_map_of_mem _ he0)
            have h2 : e0.2.maxFeePerVByte ≤ int32Max := hbound e0 he0
            have h3 : fee = e0.2.maxFeePerVByte := by
              rw [hfee, hcap] at h1 ⊢
              omega
            rw [h3]
            exact List.mem_map_of_mem _ he0
          · rw [hfee]
            exact hmem
    · exact absurd h (by simp)

/-- The three-member liquidation-recovery broadcast of the spec's end-to-end
scenario: announcements from all three members with fees 40, 30 and 35, all
addresses valid on the configured chain. -/
def broadcastEnvThree : BroadcastEnv :=
  { groupMemberIDs := [1, 2, 3]
    memberIDToAddress := fun mid => some (String.append "0xmember" (toString mid))
    chainParams := { name := "mainnet", decodeOk := fun _ => true, isForNet := fun _ => true }
    received := [{ senderID := 1, btcRecoveryAddress := "zpubX", maxFeePerVByte := 40 },
      { senderID := 2, btcRecoveryAddress := "xpubY", maxFeePerVByte := 30 },
      { senderID := 3, btcRecoveryAddress := "ypubZ", maxFeePerVByte := 35 }] }

/-- Witness for `sweepFee_is_min_of_received`: on the concrete three-member
runs the chosen fee 30 is among the received maxima and below each of them. -/
theorem sweepFee_is_min_of_received_witness :
    (∃ recoveryInfos, terminatedEnvAllOk.broadcast = .ok recoveryInfos ∧
      (30 : Int) ∈ recoveryInfos.map (fun r => r.maxFeePerVByte) ∧
      ∀ r ∈ recoveryInfos, (30 : Int) ≤ r.maxFeePerVByte) ∧
    (∀ e ∈ memberRecoveryInfo broadcastEnvThree, (30 : Int) ≤ e.2.maxFeePerVByte) :=
  ⟨sweepFee_is_min_of_received.1 terminatedEnvAllOk 100
      ["btcxpubA", "btcxpubB", "btcxpubC"] 30 (by decide),
    (sweepFee_is_min_of_received.2 broadcastEnvThree ["xpubY", "ypubZ", "zpubX"] 30
      (by decide)).1⟩

/-! ### C5 — derived outputs form a sorted permutation -/

theorem deriveAll_spec (derive : String → Nat → Except Err String) :
    ∀ raws derived, deriveAll derive raws = .ok derived →
      derived.length = raws.length ∧
      ∀ i (h1 : i < raws.length) (h2 : i < derived.length),
        derive (raws.get ⟨i, h1⟩) 0 = .ok (derived.get ⟨i, h2⟩) := by
  intro raws
  induction raws with
  | nil =>
    intro derived h
    unfold deriveAll at h
    injection h with h
    subst h
    exact ⟨rfl, by intro i h1 _; exact absurd h1 (Nat.not_lt_zero i)⟩
  | cons raw rest ih =>
    intro derived h
    unfold deriveAll at h
    split at h
    · exact absurd h (by simp)
    · rename_i a ha
      split at h
      · exact absurd h (by simp)
      · rename_i tail htail
        injection h with h
        subst h
        rcases ih tail htail with ⟨hlen, hget⟩
        refine ⟨by simp [hlen], ?_⟩
        intro i h1 h2
        cases i with
        | zero => simpa using ha
        | succ j =>
          simp only [List.length_cons] at h1 h2
          exact hget j (Nat.lt_of_succ_lt_succ h1) (Nat.lt_of_succ_lt_succ h2)

/-- C5: whenever the terminated handler reaches transaction construction, the
output list it passes is lexicographically sorted and is a permutation of the
index-0 derivations of the raw addresses received in the announcements. -/
theorem derived_outputs_sorted_permutation :
    ∀ env eventBlock outs fee,
      TAction.constructTransaction outs fee ∈ monitorKeepTerminatedHandler env eventBlock →
        ∃ recoveryInfos derived,
          env.broadcast = .ok recoveryInfos ∧
          deriveAll env.derive (rawBtcAddressesOf recoveryInfos) = .ok derived ∧
          derived.length = recoveryInfos.length ∧
          (∀ i (h1 : i < (rawBtcAddressesOf recoveryInfos).length) (h2 : i < derived.length),
            env.derive ((rawBtcAddressesOf recoveryInfos).get ⟨i, h1⟩) 0
              = .ok (derived.get ⟨i, h2⟩)) ∧
          outs.Perm derived ∧
          outs.Pairwise (fun a b => strLeB a b = true) := by
  intro env eventBlock outs fee h
  have hsteps := (terminated_handler_mem_steps h
    (by intro block isActive hne; cases hne)).2.2
  obtain ⟨first, rest, derived, hbr, hder, rfl, _⟩ :=
    terminatedRecoverySteps_mem_construct hsteps
  rcases deriveAll_spec env.derive _ _ hder with ⟨hlen, hget⟩
  refine ⟨first :: rest, derived, hbr, hder, ?_, hget, sortStrings_perm derived,
    sortStrings_sorted derived⟩
  rw [hlen]
  simp [rawBtcAddressesOf]

/-- Witness for `derived_outputs_sorted_permutation` on the concrete
three-member terminated run. -/
theorem derived_outputs_sorted_permutation_witness :
    ∃ recoveryInfos derived,
      terminatedEnvAllOk.broadcast = .ok recoveryInfos ∧
      deriveAll terminatedEnvAllOk.derive (rawBtcAddressesOf recoveryInfos) = .ok derived ∧
      derived.length = recoveryInfos.length ∧
      (∀ i (h1 : i < (rawBtcAddressesOf recoveryInfos).length) (h2 : i < derived.length),
        terminatedEnvAllOk.derive ((rawBtcAddressesOf recoveryInfos).get ⟨i, h1⟩) 0
          = .ok (derived.get ⟨i, h2⟩)) ∧
      List.Perm ["btcxpubA", "btcxpubB", "btcxpubC"] derived ∧
      List.Pairwise (fun a b => strLeB a b = true) ["btcxpubA", "btcxpubB", "btcxpubC"] :=
  derived_outputs_sorted_permutation terminatedEnvAllOk 100
    ["btcxpubA", "btcxpubB", "btcxpubC"] 30 (by decide)

/-! ### C1 — unregistration happens only when recovery succeeds -/

/-- A terminated event for which inactivity is confirmed but the member
announcement step fails. -/
def terminatedEnvAnnounceFails : TerminatedEnv :=
  { terminatedEnvAllOk with announce := .error "failed to retrieve member ids" }

/-- Counterexample to C1 as stated: an execution of the terminated-event
handler in which the keep's inactivity is confirmed and a subsequent recovery
step (the member announcement) fails, yet the keep is never unregistered —
the handler returns right after logging the failure. -/
theorem keepTerminated_unregister_skipped_on_failure_cex :
    monitorKeepTerminatedHandler terminatedEnvAnnounceFails 100 =
        [TAction.confirmTermination 112 false] ∧
    terminatedEnvAnnounceFails.announce.isOk = false ∧
    TAction.unregisterKeep ∉ monitorKeepTerminatedHandler terminatedEnvAnnounceFails 100 := by
  decide

theorem terminatedRecoverySteps_unregister {env : TerminatedEnv}
    (h : TAction.unregisterKeep ∈ terminatedRecoverySteps env) :
    env.announce.isOk = true ∧
    (∃ recoveryInfos, env.broadcast = .ok recoveryInfos ∧ recoveryInfos ≠ [] ∧
      (deriveAll env.derive (rawBtcAddressesOf recoveryInfos)).isOk = true) ∧
    env.getSigner.isOk = true ∧ env.scriptCode.isOk = true ∧
    env.getOwner.isOk = true ∧ env.fundingInfo.isOk = true ∧
    0 < env.varintBytesRead ∧
    (∃ outs fee, (env.constructTx outs fee).isOk = true) ∧
    env.sighash.isOk = true ∧ env.calcSignature.isOk = true ∧
    env.buildHex.isOk = true := by
  unfold terminatedRecoverySteps at h
  split at h
  · simp at h
  · rename_i memberIDs hann
    split at h
    · simp at h
    · rename_i recoveryInfos hbr
      split at h
      · simp at h
      · rename_i first rest
        split at h
        · simp at h
        · rename_i derived hder
          split at h
          · simp at h
          · rename_i su hsig
            split at h
            · simp at h
            · rename_i sc hsc
              split at h
              · simp at h
              · rename_i ow how
                split at h
                · simp at h
                · rename_i fi hfi
                  split at h
                  · simp at h
                  · rename_i hv0
                    split at h
                    · simp at h
                    · rename_i hvneg
                      rcases List.mem_cons.mp h with heqc | hmem
                      · cases heqc
                      · split at hmem
                        · simp at hmem
                        · rename_i cu hcx
                          split at hmem
                          · simp at hmem
                          · rename_i s2 hsh2
                            split at hmem
                            · simp at hmem
                            · rename_i s3 hcs
                              split at hmem
                              · simp at hmem
                              · rename_i hex hbh
                                exact ⟨by rw [hann]; rfl,
                                  ⟨first :: rest, hbr, by simp,
                                    by rw [hder]; rfl⟩,
                                  by rw [hsig]; rfl,
                                  by rw [hsc]; rfl,
                                  by rw [how]; rfl,
                                  by rw [hfi]; rfl,
                                  by omega,
                                  ⟨_, _, by rw [hcx]; rfl⟩,
                                  by rw [hsh2]; rfl,
                                  by rw [hcs]; rfl,
                                  by rw [hbh]; rfl⟩

theorem terminatedRecoverySteps_complete {env : TerminatedEnv}
    {first : RecoveryInfo} {rest : List RecoveryInfo} {derived : List String}
    (hann : env.announce.isOk = true)
    (hbr : env.broadcast = .ok (first :: rest))
    (hder : deriveAll env.derive (rawBtcAddressesOf (first :: rest)) = .ok derived)
    (hsig : env.getSigner.isOk = true) (hsc : env.scriptCode.isOk = true)
    (how : env.getOwner.isOk = true) (hfi : env.fundingInfo.isOk = true)
    (hv : 0 < env.varintBytesRead)
    (hcx : ∀ outs fee, (env.constructTx outs fee).isOk = true)
    (hsh : env.sighash.isOk = true) (hcs : env.calcSignature.isOk = true)
    (hbh : env.buildHex.isOk = true) :
    TAction.unregisterKeep ∈ terminatedRecoverySteps env := by
  rcases (exceptIsOk_iff env.announce).mp hann with ⟨memberIDs, hann⟩
  rcases (exceptIsOk_iff env.getSigner).mp hsig with ⟨u1, hsig⟩
  rcases (exceptIsOk_iff env.scriptCode).mp hsc with ⟨u2, hsc⟩
  rcases (exceptIsOk_iff env.getOwner).mp how with ⟨ow, how⟩
  rcases (exceptIsOk_iff env.fundingInfo).mp hfi with ⟨u3, hfi⟩
  rcases (exceptIsOk_iff (env.constructTx (sortStrings derived)
      (chosenMaxFeePerVByte first (first :: rest)))).mp (hcx _ _) with ⟨u4, hcx4⟩
  rcases (exceptIsOk_iff env.sighash).mp hsh with ⟨u5, hsh⟩
  rcases (exceptIsOk_iff env.calcSignature).mp hcs with ⟨u6, hcs⟩
  rcases (exceptIsOk_iff env.buildHex).mp hbh with ⟨hex, hbh⟩
  unfold terminatedRecoverySteps
  have h0 : ¬ env.varintBytesRead = 0 := by omega
  have h1 : ¬ env.varintBytesRead < 0 := by omega
  simp only [hann, hbr, hder, hsig, hsc, how, hfi, h0, h1, if_false, hcx4, hsh, hcs, hbh]
  simp

/-- Amended C1: during Terminated handling, once the keep's inactivity is
confirmed the handler runs the recovery steps, but the keep is unregistered
from the KeepsRegistry only when every recovery step (member announcement,
address broadcast with a non-empty result, address derivation, signer lookup,
script code, owner and funding-info reads, funding-value parse, transaction
construction, sighash computation, signing and hex assembly) succeeds;
when any of these steps fails, the handler logs the failure and returns
without unregistering the keep. -/
theorem keepTerminated_unregister_iff_recovery_succeeds :
    (∀ env eventBlock,
      TAction.unregisterKeep ∈ monitorKeepTerminatedHandler env eventBlock →
        env.shouldHandle = true ∧
        env.isActiveAt (confirmationBlock env.currentBlock eventBlock blockConfirmations)
          = .ok false ∧
        env.announce.isOk = true ∧
        (∃ recoveryInfos, env.broadcast = .ok recoveryInfos ∧ recoveryInfos ≠ [] ∧
          (deriveAll env.derive (rawBtcAddressesOf recoveryInfos)).isOk = true) ∧
        env.getSigner.isOk = true ∧ env.scriptCode.isOk = true ∧
        env.getOwner.isOk = true ∧ env.fundingInfo.isOk = true ∧
        0 < env.varintBytesRead ∧
        (∃ outs fee, (env.constructTx outs fee).isOk = true) ∧
        env.sighash.isOk = true ∧ env.calcSignature.isOk = true ∧
        env.buildHex.isOk = true) ∧
    (∀ env eventBlock first rest derived,
      env.shouldHandle = true →
      env.isActiveAt (confirmationBlock env.currentBlock eventBlock blockConfirmations)
        = .ok false →
      env.announce.isOk = true →
      env.broadcast = .ok (first :: rest) →
      deriveAll env.derive (rawBtcAddressesOf (first :: rest)) = .ok derived →
      env.getSigner.isOk = true → env.scriptCode.isOk = true →
      env.getOwner.isOk = true → env.fundingInfo.isOk = true →
      0 < env.varintBytesRead →
      (∀ outs fee, (env.constructTx outs fee).isOk = true) →
      env.sighash.isOk = true → env.calcSignature.isOk = true →
      env.buildHex.isOk = true →
      TAction.unregisterKeep ∈ monitorKeepTerminatedHandler env eventBlock) := by
  constructor
  · intro env eventBlock h
    have hw := terminated_handler_mem_steps h (by intro block isActive hne; cases hne)
    exact ⟨hw.1, hw.2.1, terminatedRecoverySteps_unregister hw.2.2⟩
  · intro env eventBlock first rest derived hs hc hann hbr hder hsig hsc how hfi hv hcx
      hsh hcs hbh
    exact terminated_handler_mem_of_steps hs hc
      (terminatedRecoverySteps_complete hann hbr hder hsig hsc how hfi hv hcx hsh hcs hbh)

/-- Witness for `keepTerminated_unregister_iff_recovery_succeeds` on the
concrete all-steps-succeed terminated run. -/
theorem keepTerminated_unregister_iff_recovery_succeeds_witness :
    TAction.unregisterKeep ∈ monitorKeepTerminatedHandler terminatedEnvAllOk 100 :=
  keepTerminated_unregister_iff_recovery_succeeds.2 terminatedEnvAllOk 100
    { btcRecoveryAddress := "xpubA", maxFeePerVByte := 40 }
    [{ btcRecoveryAddress := "xpubB", maxFeePerVByte := 30 },
      { btcRecoveryAddress := "xpubC", maxFeePerVByte := 35 }]
    ["btcxpubA", "btcxpubB", "btcxpubC"]
    rfl rfl rfl rfl rfl rfl rfl rfl rfl (by decide) (fun outs fee => rfl) rfl rfl rfl

/-! ### Association-list lemmas for the announcement map -/

/-- The keys of the per-member map. -/
def mapKeys (m : List (Addr × RecoveryInfo)) : List Addr := m.map Prod.fst

theorem lookup_cons_self {k : Addr} {v : RecoveryInfo} {rest : List (Addr × RecoveryInfo)} :
    List.lookup k ((k, v) :: rest) = some v := by
  simp [List.lookup]

theorem lookup_cons_ne {a k : Addr} {v : RecoveryInfo} {rest : List (Addr × RecoveryInfo)}
    (h : a ≠ k) : List.lookup a ((k, v) :: rest) = List.lookup a rest := by
  have hb : (a == k) = false := beq_eq_false_iff_ne.mpr h
  simp [List.lookup, hb]

theorem mapInsert_lookup_self : ∀ (m : List (Addr × RecoveryInfo)) (k : Addr)
    (v : RecoveryInfo), (mapInsert m k v).lookup k = some v := by
  intro m
  induction m with
  | nil => intro k v; exact lookup_cons_self
  | cons e rest ih =>
    intro k v
    rcases e with ⟨k', v'⟩
    by_cases h : k' = k
    · simp only [mapInsert, h, if_true]
      exact lookup_cons_self
    · simp only [mapInsert, h, if_false]
      rw [lookup_cons_ne (Ne.symm h)]
      exact ih k v

theorem mapInsert_lookup_ne : ∀ (m : List (Addr × RecoveryInfo)) (k : Addr)
    (v : RecoveryInfo) (k' : Addr), k' ≠ k →
    (mapInsert m k v).lookup k' = m.lookup k' := by
  intro m
  induction m with
  | nil =>
    intro k v k' h
    show List.lookup k' [(k, v)] = List.lookup k' ([] : List (Addr × RecoveryInfo))
    rw [lookup_cons_ne h]
  | cons e rest ih =>
    intro k v k' h
    rcases e with ⟨k0, v0⟩
    by_cases h0 : k0 = k
    · subst h0
      simp only [mapInsert, if_true]
      rw [lookup_cons_ne h, lookup_cons_ne h]
    · simp only [mapInsert, h0, if_false]
      by_cases hk : k' = k0
      · subst hk
        rw [lookup_cons_self, lookup_cons_self]
      · rw [lookup_cons_ne hk, lookup_cons_ne hk]
        exact ih k v k' h

theorem mapInsert_length : ∀ (m : List (Addr × RecoveryInfo)) (k : Addr)
    (v : RecoveryInfo),
    (mapInsert m k v).length = if (m.lookup k).isSome then m.length else m.length + 1 := by
  intro m
  induction m with
  | nil => intro k v; simp [mapInsert, List.lookup]
  | cons e rest ih =>
    intro k v
    rcases e with ⟨k0, v0⟩
    by_cases h0 : k0 = k
    · subst h0
      simp only [mapInsert, if_true, List.length_cons]
      rw [lookup_cons_self]
      simp
    · simp only [mapInsert, h0, if_false, List.length_cons]
      rw [lookup_cons_ne (Ne.symm h0)]
      rw [ih k v]
      by_cases hs : (rest.lookup k).isSome <;> simp [hs]

theorem mapInsert_keys_sub : ∀ (m : List (Addr × RecoveryInfo)) (k : Addr)
    (v : RecoveryInfo) (x : Addr), x ∈ mapKeys (mapInsert m k v) →
    x ∈ mapKeys m ∨ x = k := by
  intro m
  induction m with
  | nil => intro k v x hx; simp [mapInsert, mapKeys] at hx; right; exact hx
  | cons e rest ih =>
    intro k v x hx
    rcases e with ⟨k0, v0⟩
    by_cases h0 : k0 = k
    · subst h0
      simp only [mapInsert, if_true, mapKeys, List.map_cons] at hx
      rcases List.mem_cons.mp hx with rfl | hx
      · right; rfl
      · left; exact List.mem_cons_of_mem _ hx
    · simp only [mapInsert, h0, if_false, mapKeys, List.map_cons] at hx
      rcases List.mem_cons.mp hx with rfl | hx
      · left; simp [mapKeys]
      · rcases ih k v x hx with hm | rfl
        · left; exact List.mem_cons_of_mem _ hm
        · right; rfl

theorem mapInsert_keys_nodup : ∀ (m : List (Addr × RecoveryInfo)) (k : Addr)
    (v : RecoveryInfo), (mapKeys m).Nodup → (mapKeys (mapInsert m k v)).Nodup := by
  intro m
  induction m with
  | nil => intro k v _; simp [mapInsert, mapKeys]
  | cons e rest ih =>
    intro k v hnd
    rcases e with ⟨k0, v0⟩
    simp only [mapKeys, List.map_cons, List.nodup_cons] at hnd
    by_cases h0 : k0 = k
    · subst h0
      simp only [mapInsert, if_true, mapKeys, List.map_cons, List.nodup_cons]
      exact ⟨hnd.1, hnd.2⟩
    · simp only [mapInsert, h0, if_false, mapKeys, List.map_cons, List.nodup_cons]
      refine ⟨?_, ih k v hnd.2⟩
      intro hmem
      rcases mapInsert_keys_sub rest k v k0 hmem with hm | rfl
      · exact hnd.1 hm
      · exact h0 rfl

/-- Every key of the announcement map was put there by a received message
whose sender matched a group member converting to that address. -/
theorem foldRecord_keys (env : BroadcastEnv) :
    ∀ (msgs : List LiquidationRecoveryAnnounceMessage) (m : List (Addr × RecoveryInfo))
      (a : Addr), a ∈ mapKeys (msgs.foldl (recordAnnouncement env) m) →
      a ∈ mapKeys m ∨
        ∃ msg ∈ msgs, ∃ mid,
          env.groupMemberIDs.find? (fun x => x == msg.senderID) = some mid ∧
          env.memberIDToAddress mid = some a := by
  intro msgs
  induction msgs with
  | nil => intro m a ha; left; exact ha
  | cons msg rest ih =>
    intro m a ha
    rw [List.foldl_cons] at ha
    rcases ih (recordAnnouncement env m msg) a ha with hrec | ⟨msg', hmsg', hex⟩
    · unfold recordAnnouncement at hrec
      split at hrec
      · left; exact hrec
      · rename_i mid hfind
        split at hrec
        · left; exact hrec
        · rename_i memberAddress haddr
          rcases mapInsert_keys_sub m memberAddress _ a hrec with hm | rfl
          · left; exact hm
          · right
            exact ⟨msg, List.mem_cons_self _ _, mid, hfind, haddr⟩
    · right
      exact ⟨msg', List.mem_cons_of_mem _ hmsg', hex⟩

theorem foldRecord_keys_nodup (env : BroadcastEnv) :
    ∀ (msgs : List LiquidationRecoveryAnnounceMessage) (m : List (Addr × RecoveryInfo)),
      (mapKeys m).Nodup → (mapKeys (msgs.foldl (recordAnnouncement env) m)).Nodup := by
  intro msgs
  induction msgs with
  | nil => intro m h; exact h
  | cons msg rest ih =>
    intro m h
    rw [List.foldl_cons]
    refine ih _ ?_
    unfold recordAnnouncement
    split
    · exact h
    · split
      · exact h
      · exact mapInsert_keys_nodup _ _ _ h

theorem memberRecoveryInfo_keys_nodup (env : BroadcastEnv) :
    (mapKeys (memberRecoveryInfo env)).Nodup :=
  foldRecord_keys_nodup env env.received [] (by simp [mapKeys])

theorem memberRecoveryInfo_keys_spec (env : BroadcastEnv) :
    ∀ a ∈ mapKeys (memberRecoveryInfo env),
      ∃ msg ∈ env.received, ∃ mid,
        env.groupMemberIDs.find? (fun x => x == msg.senderID) = some mid ∧
        env.memberIDToAddress mid = some a := by
  intro a ha
  rcases foldRecord_keys env env.received [] a ha with hnil | hex
  · simp [mapKeys] at hnil
  · exact hex

theorem filterMap_length_eq_all_some {α β : Type} {f : α → Option β} :
    ∀ l : List α, (l.filterMap f).length = l.length → ∀ x ∈ l, ∃ b, f x = some b := by
  intro l
  induction l with
  | nil => intro _ x hx; simp at hx
  | cons a t ih =>
    intro hlen x hx
    cases hfa : f a with
    | none =>
      exfalso
      rw [List.filterMap_cons_none hfa] at hlen
      have := List.length_filterMap_le f t
      simp [List.length_cons] at hlen
      omega
    | some b =>
      rw [List.filterMap_cons_some hfa] at hlen
      simp only [List.length_cons, Nat.add_right_cancel_iff] at hlen
      rcases List.mem_cons.mp hx with rfl | hxt
      · exact ⟨b, hfa⟩
      · exact ih hlen x hxt

theorem filterMap_nodup_inj {α β : Type} {f : α → Option β} :
    ∀ l : List α, (l.filterMap f).Nodup →
      ∀ x ∈ l, ∀ y ∈ l, ∀ b, f x = some b → f y = some b → x = y := by
  intro l
  induction l with
  | nil => intro _ x hx; simp at hx
  | cons a t ih =>
    intro hnd x hx y hy b hfx hfy
    cases hfa : f a with
    | none =>
      rw [List.filterMap_cons_none hfa] at hnd
      rcases List.mem_cons.mp hx with rfl | hxt
      · rw [hfa] at hfx; cases hfx
      · rcases List.mem_cons.mp hy with rfl | hyt
        · rw [hfa] at hfy; cases hfy
        · exact ih hnd x hxt y hyt b hfx hfy
    | some c =>
      rw [List.filterMap_cons_some hfa] at hnd
      rcases List.nodup_cons.mp hnd with ⟨hcnot, hndt⟩
      rcases List.mem_cons.mp hx with rfl | hxt
      · rcases List.mem_cons.mp hy with rfl | hyt
        · rfl
        · exfalso
          rw [hfa] at hfx
          injection hfx with hbc
          subst hbc
          exact hcnot (List.mem_filterMap.mpr ⟨y, hyt, hfy⟩)
      · rcases List.mem_cons.mp hy with rfl | hyt
        · exfalso
          rw [hfa] at hfy
          injection hfy with hbc
          subst hbc
          exact hcnot (List.mem_filterMap.mpr ⟨x, hxt, hfx⟩)
        · exact ih hndt x hxt y hyt b hfx hfy

/-- If the announcement map reaches the group size, every group member's ID
must have appeared as the sender of some received message: the map's keys are
distinct, only members' converted addresses can be keys, and the address
conversion cannot collide on fewer than `length` distinct values. -/
theorem gatherCompleted_all_members (env : BroadcastEnv)
    (h : gatherCompleted env = true) :
    ∀ mid ∈ env.groupMemberIDs, ∃ msg ∈ env.received, msg.senderID = mid := by
  have h' := h
  unfold gatherCompleted at h'
  simp only [Bool.and_eq_true, beq_iff_eq] at h'
  have hlen : (memberRecoveryInfo env).length = env.groupMemberIDs.length := h'.2
  have hknd : (mapKeys (memberRecoveryInfo env)).Nodup := memberRecoveryInfo_keys_nodup env
  have hklen : (mapKeys (memberRecoveryInfo env)).length = env.groupMemberIDs.length := by
    unfold mapKeys
    rw [List.length_map]
    exact hlen
  have hsub : ∀ a ∈ mapKeys (memberRecoveryInfo env),
      a ∈ env.groupMemberIDs.filterMap env.memberIDToAddress := by
    intro a ha
    rcases memberRecoveryInfo_keys_spec env a ha with ⟨msg, hmsg, mid', hfind, haddr⟩
    exact List.mem_filterMap.mpr ⟨mid', List.mem_of_find?_eq_some hfind, haddr⟩
  have hsubF : (mapKeys (memberRecoveryInfo env)).toFinset ⊆
      (env.groupMemberIDs.filterMap env.memberIDToAddress).toFinset := by
    intro a ha
    exact List.mem_toFinset.mpr (hsub a (List.mem_toFinset.mp ha))
  have hkcard : (mapKeys (memberRecoveryInfo env)).toFinset.card
      = (mapKeys (memberRecoveryInfo env)).length := by
    rw [List.card_toFinset, List.Nodup.dedup hknd]
  have himlen : (env.groupMemberIDs.filterMap env.memberIDToAddress).length
      ≤ env.groupMemberIDs.length := List.length_filterMap_le _ _
  have himcard : (env.groupMemberIDs.filterMap env.memberIDToAddress).toFinset.card
      ≤ (env.groupMemberIDs.filterMap env.memberIDToAddress).length :=
    List.toFinset_card_le _
  have hchain : env.groupMemberIDs.length
      ≤ (env.groupMemberIDs.filterMap env.memberIDToAddress).toFinset.card := by
    have := Finset.card_le_card hsubF
    omega
  have himcard_eq : (env.groupMemberIDs.filterMap env.memberIDToAddress).toFinset.card
      = (env.groupMemberIDs.filterMap env.memberIDToAddress).length := by omega
  have himlen_eq : (env.groupMemberIDs.filterMap env.memberIDToAddress).length
      = env.groupMemberIDs.length := by omega
  have himnd : (env.groupMemberIDs.filterMap env.memberIDToAddress).Nodup := by
    have hd : (env.groupMemberIDs.filterMap env.memberIDToAddress).dedup.length
        = (env.groupMemberIDs.filterMap env.memberIDToAddress).length := by
      rw [← List.card_toFinset]
      exact himcard_eq
    have hsubl := List.dedup_sublist (env.groupMemberIDs.filterMap env.memberIDToAddress)
    have heqd := hsubl.eq_of_length hd
    rw [← heqd]
    exact List.nodup_dedup _
  have hall : ∀ x ∈ env.groupMemberIDs, ∃ b, env.memberIDToAddress x = some b :=
    filterMap_length_eq_all_some _ himlen_eq
  have hsetEq : (mapKeys (memberRecoveryInfo env)).toFinset
      = (env.groupMemberIDs.filterMap env.memberIDToAddress).toFinset :=
    Finset.eq_of_subset_of_card_le hsubF (by omega)
  intro mid hmid
  rcases hall mid hmid with ⟨a, haddr⟩
  have haim : a ∈ env.groupMemberIDs.filterMap env.memberIDToAddress :=
    List.mem_filterMap.mpr ⟨mid, hmid, haddr⟩
  have hak : a ∈ mapKeys (memberRecoveryInfo env) := by
    have hmemF := List.mem_toFinset.mpr haim
    rw [← hsetEq] at hmemF
    exact List.mem_toFinset.mp hmemF
  rcases memberRecoveryInfo_keys_spec env a hak with ⟨msg, hmsg, mid', hfind, haddr'⟩
  have hmem' : mid' ∈ env.groupMemberIDs := List.mem_of_find?_eq_some hfind
  have hsender : mid' = msg.senderID := by
    have hp := List.find?_some hfind
    exact beq_iff_eq.mp hp
  have hmm : mid' = mid :=
    filterMap_nodup_inj env.groupMemberIDs himnd mid' hmem' mid hmid a haddr' haddr
  exact ⟨msg, hmsg, hsender ▸ hmm⟩

/-! ### C7 — success exactly on full coverage (amended: and valid addresses) -/

/-- A one-member broadcast in which the only member announces before the
deadline, but its beneficiary address fails to decode. -/
def broadcastEnvInvalidAddr : BroadcastEnv :=
  { groupMemberIDs := [1]
    memberIDToAddress := fun mid => some (String.append "0xmember" (toString mid))
    chainParams := { name := "mainnet", decodeOk := fun _ => false, isForNet := fun _ => true }
    received := [{ senderID := 1, btcRecoveryAddress := "notanaddress", maxFeePerVByte := 5 }] }

/-- Counterexample to C7 as stated: announcements were received from every
group member before the deadline, yet `BroadcastRecoveryAddress` does not
complete successfully — the received address fails validation and an error is
returned. -/
theorem broadcast_coverage_without_success_cex :
    gatherCompleted broadcastEnvInvalidAddr = true ∧
    (∀ mid ∈ broadcastEnvInvalidAddr.groupMemberIDs,
      ∃ msg ∈ broadcastEnvInvalidAddr.received, msg.senderID = mid) ∧
    BroadcastRecoveryAddress broadcastEnvInvalidAddr =
      .invalidAddressError "notanaddress" ∧
    ∀ addrs fee, BroadcastRecoveryAddress broadcastEnvInvalidAddr ≠ .ok addrs fee := by
  refine ⟨by decide, by decide, by decide, ?_⟩
  intro addrs fee h
  rw [show BroadcastRecoveryAddress broadcastEnvInvalidAddr =
    .invalidAddressError "notanaddress" from by decide] at h
  cases h

/-- Amended C7: `BroadcastRecoveryAddress` completes successfully exactly when
announcements have been received from every group member before the 2-minute
deadline and every received beneficiary address passes validation; when the
deadline elapses without full coverage it logs each member from which no
announcement was received, identified by address, and returns an error
instead of a partial address list. -/
theorem broadcast_success_iff_coverage_and_valid :
    (∀ env, (∃ addrs fee, BroadcastRecoveryAddress env = .ok addrs fee) ↔
      (gatherCompleted env = true ∧
        ∀ e ∈ memberRecoveryInfo env,
          (ValidateReceivedBtcAddress e.2.btcRecoveryAddress env.chainParams).isOk
            = true)) ∧
    (∀ env, gatherCompleted env = false →
      BroadcastRecoveryAddress env = .timeoutError (missingMembers env)) ∧
    (∀ env a, a ∈ missingMembers env ↔
      ∃ mid ∈ env.groupMemberIDs, env.memberIDToAddress mid = some a ∧
        (memberRecoveryInfo env).lookup a = none) := by
  refine ⟨?_, ?_, ?_⟩
  · intro env
    constructor
    · rintro ⟨addrs, fee, h⟩
      unfold BroadcastRecoveryAddress at h
      split at h
      · rename_i hg
        split at h
        · exact absurd h (by simp)
        · rename_i hfind
          refine ⟨hg, ?_⟩
          intro e he
          have := List.find?_eq_none.mp hfind e he
          simpa using this
      · exact absurd h (by simp)
    · rintro ⟨hg, hval⟩
      unfold BroadcastRecoveryAddress
      rw [hg]
      simp only [if_true]
      cases hfind : (memberRecoveryInfo env).find?
          (fun e =>
            !(ValidateReceivedBtcAddress e.2.btcRecoveryAddress env.chainParams).isOk) with
      | none => exact ⟨_, _, rfl⟩
      | some e =>
        exfalso
        have hp := List.find?_some hfind
        have hmem := List.mem_of_find?_eq_some hfind
        have := hval e hmem
        simp [this] at hp
  · intro env hg
    unfold BroadcastRecoveryAddress
    rw [hg]
    simp
  · intro env a
    unfold missingMembers
    rw [List.mem_filterMap]
    constructor
    · rintro ⟨mid, hmid, hf⟩
      refine ⟨mid, hmid, ?_⟩
      revert hf
      cases haddr : env.memberIDToAddress mid with
      | none => intro hf; cases hf
      | some x =>
        by_cases hs : ((memberRecoveryInfo env).lookup x).isSome
        · simp [hs]
        · simp only [hs, if_false]
          intro hf
          injection hf with hf
          subst hf
          exact ⟨rfl, Option.not_isSome_iff_eq_none.mp hs⟩
    · rintro ⟨mid, hmid, haddr, hnone⟩
      refine ⟨mid, hmid, ?_⟩
      rw [haddr]
      simp [hnone]

/-- The three-member broadcast with only one announcement received: members 2
and 3 stay silent past the deadline. -/
def broadcastEnvMissing : BroadcastEnv :=
  { broadcastEnvThree with
    received := [{ senderID := 1, btcRecoveryAddress := "zpubX", maxFeePerVByte := 40 }] }

/-- Witness for `broadcast_success_iff_coverage_and_valid`: the full
three-member run completes successfully, and the one-announcement run times
out logging members 2 and 3 as missing, by address. -/
theorem broadcast_success_iff_coverage_and_valid_witness :
    (∃ addrs fee, BroadcastRecoveryAddress broadcastEnvThree = .ok addrs fee) ∧
    BroadcastRecoveryAddress broadcastEnvMissing
      = .timeoutError (missingMembers broadcastEnvMissing) ∧
    missingMembers broadcastEnvMissing = ["0xmember2", "0xmember3"] ∧
    ("0xmember2" ∈ missingMembers broadcastEnvMissing ↔
      ∃ mid ∈ broadcastEnvMissing.groupMemberIDs,
        broadcastEnvMissing.memberIDToAddress mid = some "0xmember2" ∧
        (memberRecoveryInfo broadcastEnvMissing).lookup "0xmember2" = none) :=
  ⟨(broadcast_success_iff_coverage_and_valid.1 broadcastEnvThree).mpr
      ⟨by decide, by decide⟩,
    broadcast_success_iff_coverage_and_valid.2.1 broadcastEnvMissing (by decide),
    by decide,
    broadcast_success_iff_coverage_and_valid.2.2 broadcastEnvMissing "0xmember2"⟩

/-! ### C8 — received addresses are validated on the expected network -/

/-- C8: every beneficiary address received from a peer is validated against
the expected network parameters; with full coverage, any entry failing
validation makes `BroadcastRecoveryAddress` abort with an error naming an
invalid address and return no address list; and validation succeeds exactly
when the address decodes and is for the configured chain. -/
theorem received_addresses_validated :
    (∀ env addrs fee, BroadcastRecoveryAddress env = .ok addrs fee →
      ∀ e ∈ memberRecoveryInfo env,
        (ValidateReceivedBtcAddress e.2.btcRecoveryAddress env.chainParams).isOk
          = true) ∧
    (∀ env, gatherCompleted env = true →
      (∃ e ∈ memberRecoveryInfo env,
        (ValidateReceivedBtcAddress e.2.btcRecoveryAddress env.chainParams).isOk
          = false) →
      ∃ badAddress, BroadcastRecoveryAddress env = .invalidAddressError badAddress ∧
        (ValidateReceivedBtcAddress badAddress env.chainParams).isOk = false) ∧
    (∀ btcAddress chainParams,
      (ValidateReceivedBtcAddress btcAddress chainParams).isOk = true ↔
        chainParams.decodeOk btcAddress = true ∧
          chainParams.isForNet btcAddress = true) := by
  refine ⟨?_, ?_, ?_⟩
  · intro env addrs fee h e he
    unfold BroadcastRecoveryAddress at h
    split at h
    · split at h
      · exact absurd h (by simp)
      · rename_i hfind
        have := List.find?_eq_none.mp hfind e he
        simpa using this
    · exact absurd h (by simp)
  · intro env hg hex
    unfold BroadcastRecoveryAddress
    rw [hg]
    simp only [if_true]
    cases hfind : (memberRecoveryInfo env).find?
        (fun e =>
          !(ValidateReceivedBtcAddress e.2.btcRecoveryAddress env.chainParams).isOk) with
    | none =>
      exfalso
      rcases hex with ⟨e, he, hbad⟩
      have := List.find?_eq_none.mp hfind e he
      simp [hbad] at this
    | some e =>
      have hp := List.find?_some hfind
      refine ⟨e.2.btcRecoveryAddress, rfl, ?_⟩
      simpa using hp
  · intro btcAddress chainParams
    unfold ValidateReceivedBtcAddress
    by_cases hd : chainParams.decodeOk btcAddress
    · by_cases hf : chainParams.isForNet btcAddress
      · simp [hd, hf, Except.isOk, Except.toBool]
      · simp [hd, hf, Except.isOk, Except.toBool]
    · simp [hd, Except.isOk, Except.toBool]

/-- Witness for `received_addresses_validated`: the successful three-member
run has every stored address valid, and the invalid-address run aborts with a
validation error naming the bad address. -/
theorem received_addresses_validated_witness :
    (∀ e ∈ memberRecoveryInfo broadcastEnvThree,
      (ValidateReceivedBtcAddress e.2.btcRecoveryAddress
        broadcastEnvThree.chainParams).isOk = true) ∧
    (∃ badAddress, BroadcastRecoveryAddress broadcastEnvInvalidAddr
        = .invalidAddressError badAddress ∧
      (ValidateReceivedBtcAddress badAddress
        broadcastEnvInvalidAddr.chainParams).isOk = false) :=
  ⟨received_addresses_validated.1 broadcastEnvThree ["xpubY", "ypubZ", "zpubX"] 30
      (by decide),
    received_addresses_validated.2.1 broadcastEnvInvalidAddr (by decide)
      ⟨("0xmember1", { btcRecoveryAddress := "notanaddress", maxFeePerVByte := 5 }),
        by decide, by decide⟩⟩

/-! ### C10 — announcement-map invariants -/

/-- C10: a message whose sender is no group member is never recorded; a
message from a member overwrites that member's entry (the entry maps to the
latest announcement and the map grows only when the key is new); the protocol
can complete early only once every distinct group member has announced; and a
successful result carries exactly one address per group member. -/
theorem announcement_map_invariants :
    (∀ env m msg, (∀ mid ∈ env.groupMemberIDs, mid ≠ msg.senderID) →
      recordAnnouncement env m msg = m) ∧
    (∀ env m msg mid memberAddress,
      env.groupMemberIDs.find? (fun x => x == msg.senderID) = some mid →
      env.memberIDToAddress mid = some memberAddress →
      (recordAnnouncement env m msg).lookup memberAddress
        = some { btcRecoveryAddress := msg.btcRecoveryAddress, maxFeePerVByte := msg.maxFeePerVByte } ∧
      (recordAnnouncement env m msg).length =
        if (m.lookup memberAddress).isSome then m.length else m.length + 1) ∧
    (∀ env, gatherCompleted env = true →
      ∀ mid ∈ env.groupMemberIDs, ∃ msg ∈ env.received, msg.senderID = mid) ∧
    (∀ env addrs fee, BroadcastRecoveryAddress env = .ok addrs fee →
      addrs.length = env.groupMemberIDs.length) := by
  refine ⟨?_, ?_, ?_, ?_⟩
  · intro env m msg h
    unfold recordAnnouncement
    cases hfind : env.groupMemberIDs.find? (fun x => x == msg.senderID) with
    | none => rfl
    | some mid =>
      exfalso
      have hp := List.find?_some hfind
      have hmem := List.mem_of_find?_eq_some hfind
      exact h mid hmem (beq_iff_eq.mp hp)
  · intro env m msg mid memberAddress hfind haddr
    simp only [recordAnnouncement, hfind, haddr]
    exact ⟨mapInsert_lookup_self m memberAddress _, mapInsert_length m memberAddress _⟩
  · intro env hg
    exact gatherCompleted_all_members env hg
  · intro env addrs fee h
    unfold BroadcastRecoveryAddress at h
    split at h
    · rename_i hg
      split at h
      · exact absurd h (by simp)
      · injection h with h1 h2
        unfold gatherCompleted at hg
        simp only [Bool.and_eq_true, beq_iff_eq] at hg
        rw [← h1]
        have hperm := sortStrings_perm
          ((memberRecoveryInfo env).map (fun e => e.2.btcRecoveryAddress))
        rw [hperm.length_eq, List.length_map]
        exact hg.2
    · exact absurd h (by simp)

/-- Witness for `announcement_map_invariants`: on the three-member run, a
non-member announcement is dropped, a member announcement is recorded under
the member's address, completion implies every member announced, and the
successful result has three addresses. -/
theorem announcement_map_invariants_witness :
    (recordAnnouncement broadcastEnvThree []
        { senderID := 9, btcRecoveryAddress := "zpubQ", maxFeePerVByte := 1 } = []) ∧
    ((recordAnnouncement broadcastEnvThree []
        { senderID := 2, btcRecoveryAddress := "xpubY", maxFeePerVByte := 30 }).lookup
      "0xmember2" = some { btcRecoveryAddress := "xpubY", maxFeePerVByte := 30 }) ∧
    (∀ mid ∈ broadcastEnvThree.groupMemberIDs,
      ∃ msg ∈ broadcastEnvThree.received, msg.senderID = mid) ∧
    (["xpubY", "ypubZ", "zpubX"] : List String).length
      = broadcastEnvThree.groupMemberIDs.length :=
  ⟨announcement_map_invariants.1 broadcastEnvThree []
      { senderID := 9, btcRecoveryAddress := "zpubQ", maxFeePerVByte := 1 } (by decide),
    (announcement_map_invariants.2.1 broadcastEnvThree []
      { senderID := 2, btcRecoveryAddress := "xpubY", maxFeePerVByte := 30 } 2 "0xmember2"
      (by decide) (by decide)).1,
    announcement_map_invariants.2.2.1 broadcastEnvThree (by decide),
    announcement_map_invariants.2.2.2 broadcastEnvThree ["xpubY", "ypubZ", "zpubX"] 30
      (by decide)⟩

/-! ### C9 — the startup awaiting-key-generation scan -/

theorem scanKeepsFrom_succ (env : ScanEnv) (n : Nat) :
    scanKeepsFrom env (n + 1) =
      match env.keeps[n]? with
      | none => scanKeepsFrom env n
      | some k =>
        if !k.atIndexOk then scanKeepsFrom env n
        else
          match k.openedTimestamp with
          | .error _ => scanKeepsFrom env n
          | .ok ts =>
            if ts + env.lookbackPeriod < env.now then []
            else if checkAwaitingKeyGenerationForKeep env k then n :: scanKeepsFrom env n
            else scanKeepsFrom env n := rfl

/-- Characterization of the scan loop: an index is collected exactly when it
lies below the start, its keep is readable, fresh (opened within the lookback
window) and startable, and no keep at a higher scanned index broke the loop. -/
theorem scanKeepsFrom_mem (env : ScanEnv) :
    ∀ n i, i ∈ scanKeepsFrom env n ↔
      (i < n ∧
        (∃ k, env.keeps[i]? = some k ∧ k.atIndexOk = true ∧
          (∃ ts, k.openedTimestamp = .ok ts ∧ ¬ ts + env.lookbackPeriod < env.now) ∧
          checkAwaitingKeyGenerationForKeep env k = true) ∧
        (∀ j kj, i < j → j < n → env.keeps[j]? = some kj →
          stopsScanAt env kj = false)) := by
  intro n
  induction n with
  | zero =>
    intro i
    simp [scanKeepsFrom]
  | succ n ih =>
    intro i
    cases hkn : env.keeps[n]? with
    | none =>
      have hrec : scanKeepsFrom env (n + 1) = scanKeepsFrom env n := by
        rw [scanKeepsFrom_succ, hkn]
      rw [hrec, ih i]
      constructor
      · rintro ⟨h1, h2, h3⟩
        refine ⟨by omega, h2, ?_⟩
        intro j kj hij hjn hkj
        by_cases hj : j = n
        · subst hj
          rw [hkn] at hkj
          cases hkj
        · exact h3 j kj hij (by omega) hkj
      · rintro ⟨h1, h2, h3⟩
        have hin : i ≠ n := by
          intro he
          subst he
          rcases h2 with ⟨k, hk, _⟩
          rw [hkn] at hk
          cases hk
        exact ⟨by omega, h2, fun j kj hij hjn hkj => h3 j kj hij (by omega) hkj⟩
    | some k =>
      by_cases hok : k.atIndexOk
      case neg =>
        simp only [Bool.not_eq_true] at hok
        have hrec : scanKeepsFrom env (n + 1) = scanKeepsFrom env n := by
          rw [scanKeepsFrom_succ, hkn]
          simp [hok]
        have hstop : stopsScanAt env k = false := by
          unfold stopsScanAt
          simp [hok]
        rw [hrec, ih i]
        constructor
        · rintro ⟨h1, h2, h3⟩
          refine ⟨by omega, h2, ?_⟩
          intro j kj hij hjn hkj
          by_cases hj : j = n
          · subst hj
            rw [hkn] at hkj
            injection hkj with hkj
            subst hkj
            exact hstop
          · exact h3 j kj hij (by omega) hkj
        · rintro ⟨h1, h2, h3⟩
          have hin : i ≠ n := by
            intro he
            subst he
            rcases h2 with ⟨k', hk', hok', _⟩
            rw [hkn] at hk'
            injection hk' with hk'
            subst hk'
            rw [hok'] at hok
            cases hok
          exact ⟨by omega, h2, fun j kj hij hjn hkj => h3 j kj hij (by omega) hkj⟩
      case pos =>
        cases hts : k.openedTimestamp with
        | error e =>
          have hrec : scanKeepsFrom env (n + 1) = scanKeepsFrom env n := by
            rw [scanKeepsFrom_succ, hkn]
            simp [hok, hts]
          have hstop : stopsScanAt env k = false := by
            unfold stopsScanAt
            rw [hts]
            simp
          rw [hrec, ih i]
          constructor
          · rintro ⟨h1, h2, h3⟩
            refine ⟨by omega, h2, ?_⟩
            intro j kj hij hjn hkj
            by_cases hj : j = n
            · subst hj
              rw [hkn] at hkj
              injection hkj with hkj
              subst hkj
              exact hstop
            · exact h3 j kj hij (by omega) hkj
          · rintro ⟨h1, h2, h3⟩
            have hin : i ≠ n := by
              intro he
              subst he
              rcases h2 with ⟨k', hk', _, ⟨ts', hts', _⟩, _⟩
              rw [hkn] at hk'
              injection hk' with hk'
              subst hk'
              rw [hts] at hts'
              cases hts'
            exact ⟨by omega, h2, fun j kj hij hjn hkj => h3 j kj hij (by omega) hkj⟩
        | ok ts =>
          by_cases hstale : ts + env.lookbackPeriod < env.now
          · have hrec : scanKeepsFrom env (n + 1) = [] := by
              rw [scanKeepsFrom_succ, hkn]
              simp [hok, hts, hstale]
            rw [hrec]
            simp only [List.not_mem_nil, false_iff]
            rintro ⟨h1, h2, h3⟩
            by_cases hin : i = n
            · subst hin
              rcases h2 with ⟨k', hk', _, ⟨ts', hts', hnst⟩, _⟩
              rw [hkn] at hk'
              injection hk' with hk'
              subst hk'
              rw [hts] at hts'
              injection hts' with hts'
              subst hts'
              exact hnst hstale
            · have hc := h3 n k (by omega) (by omega) hkn
              unfold stopsScanAt at hc
              rw [hts] at hc
              simp [hok, hstale] at hc
          · by_cases hcheck : checkAwaitingKeyGenerationForKeep env k
            · have hrec : scanKeepsFrom env (n + 1) = n :: scanKeepsFrom env n := by
                rw [scanKeepsFrom_succ, hkn]
                simp [hok, hts, hstale, hcheck]
              rw [hrec]
              constructor
              · intro h
                rcases List.mem_cons.mp h with rfl | hmem
                · refine ⟨by omega, ⟨k, hkn, hok, ⟨ts, hts, hstale⟩, hcheck⟩, ?_⟩
                  intro j kj hij hjn hkj
                  omega
                · rcases (ih i).mp hmem with ⟨h1, h2, h3⟩
                  refine ⟨by omega, h2, ?_⟩
                  intro j kj hij hjn hkj
                  by_cases hj : j = n
                  · subst hj
                    rw [hkn] at hkj
                    injection hkj with hkj
                    subst hkj
                    unfold stopsScanAt
                    rw [hts]
                    simp [hok, hstale]
                  · exact h3 j kj hij (by omega) hkj
              · rintro ⟨h1, h2, h3⟩
                by_cases hin : i = n
                · subst hin
                  exact List.mem_cons_self _ _
                · refine List.mem_cons_of_mem _ ((ih i).mpr ⟨by omega, h2, ?_⟩)
                  intro j kj hij hjn hkj
                  exact h3 j kj hij (by omega) hkj
            · have hrec : scanKeepsFrom env (n + 1) = scanKeepsFrom env n := by
                rw [scanKeepsFrom_succ, hkn]
                simp [hok, hts, hstale, hcheck]
              have hstop : stopsScanAt env k = false := by
                unfold stopsScanAt
                rw [hts]
                simp [hok, hstale]
              rw [hrec, ih i]
              constructor
              · rintro ⟨h1, h2, h3⟩
                refine ⟨by omega, h2, ?_⟩
                intro j kj hij hjn hkj
                by_cases hj : j = n
                · subst hj
                  rw [hkn] at hkj
                  injection hkj with hkj
                  subst hkj
                  exact hstop
                · exact h3 j kj hij (by omega) hkj
              · rintro ⟨h1, h2, h3⟩
                have hin : i ≠ n := by
                  intro he
                  subst he
                  rcases h2 with ⟨k', hk', _, _, hcheck'⟩
                  rw [hkn] at hk'
                  injection hk' with hk'
                  subst hk'
                  exact hcheck hcheck'
                exact ⟨by omega, h2, fun j kj hij hjn hkj => h3 j kj hij (by omega) hkj⟩

/-- The start conditions of `checkAwaitingKeyGenerationForKeep`, spelled out. -/
theorem checkForKeep_iff (env : ScanEnv) (k : ScanKeep) :
    checkAwaitingKeyGenerationForKeep env k = true ↔
      (k.publicKey = .ok [] ∧ k.hasSigner = false ∧
        (∃ ms, k.members = .ok ms ∧ env.myAddress ∈ ms) ∧
        (∃ ht, k.honestThreshold = .ok ht)) := by
  constructor
  · intro hc
    unfold checkAwaitingKeyGenerationForKeep at hc
    split at hc
    · cases hc
    · rename_i publicKey hpk
      split at hc
      · cases hc
      · rename_i hlen
        split at hc
        · cases hc
        · rename_i hsig
          split at hc
          · cases hc
          · rename_i ms hms
            split at hc
            · cases hc
            · rename_i ht hht
              have hpk0 : publicKey = [] := by simpa using hlen
              subst hpk0
              refine ⟨hpk, by simpa using hsig, ⟨ms, hms, ?_⟩, ⟨ht, hht⟩⟩
              simpa using hc
  · rintro ⟨hpk, hsig, ⟨ms, hms, hmem⟩, ⟨ht, hht⟩⟩
    unfold checkAwaitingKeyGenerationForKeep
    simp [hpk, hms, hht, hsig, hmem]

/-- C9: the startup scan starts key generation exactly for the indices below
the keep count that are reachable from the top without meeting a keep opened
before the lookback window, and whose keep reads back with an empty on-chain
public key, no persisted local signer, readable members containing this
node's address, and a readable honest threshold; in particular a keep with a
persisted signer is never started, even with an empty on-chain key. -/
theorem awaiting_keygen_scan_spec :
    (∀ env i, i ∈ checkAwaitingKeyGeneration env ↔
      (env.getKeepCountOk = true ∧ i < env.keeps.length ∧
        (∃ k, env.keeps[i]? = some k ∧ k.atIndexOk = true ∧
          (∃ ts, k.openedTimestamp = .ok ts ∧ ¬ ts + env.lookbackPeriod < env.now) ∧
          (k.publicKey = .ok [] ∧ k.hasSigner = false ∧
            (∃ ms, k.members = .ok ms ∧ env.myAddress ∈ ms) ∧
            (∃ ht, k.honestThreshold = .ok ht))) ∧
        (∀ j kj, i < j → j < env.keeps.length → env.keeps[j]? = some kj →
          stopsScanAt env kj = false))) ∧
    (∀ env i k, env.keeps[i]? = some k → k.hasSigner = true →
      i ∉ checkAwaitingKeyGeneration env) := by
  constructor
  · intro env i
    unfold checkAwaitingKeyGeneration
    by_cases hcnt : env.getKeepCountOk
    · rw [if_pos hcnt, scanKeepsFrom_mem env env.keeps.length i]
      constructor
      · rintro ⟨h1, ⟨k, hk, hok, hfresh, hcheck⟩, h3⟩
        exact ⟨hcnt, h1, ⟨k, hk, hok, hfresh, (checkForKeep_iff env k).mp hcheck⟩, h3⟩
      · rintro ⟨_, h1, ⟨k, hk, hok, hfresh, hcond⟩, h3⟩
        exact ⟨h1, ⟨k, hk, hok, hfresh, (checkForKeep_iff env k).mpr hcond⟩, h3⟩
    · rw [if_neg hcnt]
      simp only [List.not_mem_nil, false_iff]
      rintro ⟨hcnt', _⟩
      exact hcnt hcnt'
  · intro env i k hk hsig habs
    unfold checkAwaitingKeyGeneration at habs
    by_cases hcnt : env.getKeepCountOk
    · rw [if_pos hcnt, scanKeepsFrom_mem env env.keeps.length i] at habs
      rcases habs with ⟨_, ⟨k', hk', _, _, hcheck⟩, _⟩
      rw [hk] at hk'
      injection hk' with hk'
      subst hk'
      rcases (checkForKeep_iff env k).mp hcheck with ⟨_, hns, _, _⟩
      rw [hsig] at hns
      cases hns
    · rw [if_neg hcnt] at habs
      simp at habs

/-- The oldest keep of the witness scan, opened before the lookback window. -/
def scanKeepStale : ScanKeep :=
  { atIndexOk := true
    openedTimestamp := .ok 0
    publicKey := .ok []
    hasSigner := false
    members := .ok ["0xme", "0xother"]
    honestThreshold := .ok 2 }

/-- The middle keep of the witness scan, with a persisted local signer. -/
def scanKeepWithSigner : ScanKeep :=
  { atIndexOk := true
    openedTimestamp := .ok 95
    publicKey := .ok []
    hasSigner := true
    members := .ok ["0xme", "0xother"]
    honestThreshold := .ok 2 }

/-- The newest keep of the witness scan, startable for this node. -/
def scanKeepFresh : ScanKeep :=
  { atIndexOk := true
    openedTimestamp := .ok 98
    publicKey := .ok []
    hasSigner := false
    members := .ok ["0xme", "0xother"]
    honestThreshold := .ok 2 }

/-- A startup scan over three keeps: the oldest was opened before the
lookback window, the middle one has a persisted signer, the newest is
startable for this node. -/
def scanEnvThree : ScanEnv :=
  { getKeepCountOk := true
    keeps := [scanKeepStale, scanKeepWithSigner, scanKeepFresh]
    lookbackPeriod := 10
    now := 100
    myAddress := "0xme" }

/-- Witness for `awaiting_keygen_scan_spec`: in the three-keep scan, the
newest keep (index 2) is started and characterized, while the keep with a
persisted signer (index 1) is not started. -/
theorem awaiting_keygen_scan_spec_witness :
    (scanEnvThree.getKeepCountOk = true ∧ 2 < scanEnvThree.keeps.length ∧
      (∃ k, scanEnvThree.keeps[2]? = some k ∧ k.atIndexOk = true ∧
        (∃ ts, k.openedTimestamp = .ok ts ∧
          ¬ ts + scanEnvThree.lookbackPeriod < scanEnvThree.now) ∧
        (k.publicKey = .ok [] ∧ k.hasSigner = false ∧
          (∃ ms, k.members = .ok ms ∧ scanEnvThree.myAddress ∈ ms) ∧
          (∃ ht, k.honestThreshold = .ok ht))) ∧
      (∀ j kj, 2 < j → j < scanEnvThree.keeps.length →
        scanEnvThree.keeps[j]? = some kj → stopsScanAt scanEnvThree kj = false)) ∧
    1 ∉ checkAwaitingKeyGeneration scanEnvThree :=
  ⟨(awaiting_keygen_scan_spec.1 scanEnvThree 2).mp (by decide),
    awaiting_keygen_scan_spec.2 scanEnvThree 1 scanKeepWithSigner rfl rfl⟩

end KeepEcdsa
